import Mathlib

/-!
Verification of the SP1 ↔ GIS format conversion core (src/utils/sp1Parser.ts).

The TypeScript source is shallowly embedded here.  Strings are processed as
lists of characters (`Chars`); JavaScript numbers are modelled as exact
rationals, with `Option ℚ` standing for a JS number where `none` plays the
role of `NaN` (the `Infinity` values and IEEE-754 double rounding are outside
the model: every numeric literal the parsers accept is taken at its exact
decimal value).  JavaScript objects used as string-keyed records are modelled
as insertion-ordered association lists with unique keys.
-/

/-- Character lists, the working representation of JS strings. -/
abbrev Chars := List Char

/-- Whitespace test used throughout (models the class matched by JS `\s`
and by `String.prototype.trim` for the ASCII range relevant here). -/
def ws (c : Char) : Bool := c.isWhitespace

/-- Drop trailing characters satisfying `ws` (right half of JS `trim`). -/
def rtrimL (l : Chars) : Chars := (l.reverse.dropWhile ws).reverse

/-- Model of JS `String.prototype.trim`: drop leading and trailing whitespace. -/
def jsTrimL (l : Chars) : Chars := rtrimL (l.dropWhile ws)

/-- Model of JS `String.prototype.split(sep)` for a one-character separator
(and of `split(/\s+/)` when post-composed with dropping empty pieces, which
agrees with the regex split on trimmed input, the only way the source uses
it).  Splits at every character satisfying `p`; adjacent separators yield
empty pieces. -/
def splitByL (p : Char → Bool) : Chars → List Chars
  | [] => [[]]
  | c :: cs =>
    let r := splitByL p cs
    if p c then [] :: r else (c :: r.headD []) :: r.tail

/-- Numeric value of a run of decimal digit characters, most significant
first (the value JS assigns to the digit part of a numeric literal). -/
def digitsValL (l : Chars) : ℕ := l.foldl (fun a c => 10 * a + (c.toNat - '0'.toNat)) 0

/-- Fuel-driven little-endian base-10 digit extraction (fuel `f ≥ n` suffices;
structural recursion keeps it kernel-reducible). -/
def natDigitsAux : ℕ → ℕ → List ℕ
  | 0, _ => []
  | f + 1, n => if n = 0 then [] else n % 10 :: natDigitsAux f (n / 10)

/-- Little-endian base-10 digits of `n` (empty for 0). -/
def natDigits (n : ℕ) : List ℕ := natDigitsAux n n

/-- Character for one decimal digit (used only with `d < 10`). -/
def digitCharOf (d : ℕ) : Char := Char.ofNat (48 + d)

/-- Decimal digit characters of `n`, most significant first (empty for 0). -/
def natDigitChars (n : ℕ) : Chars := ((natDigits n).map digitCharOf).reverse

/-- Standard decimal rendering of a natural number, as characters. -/
def natToStrL (n : ℕ) : Chars := if n = 0 then ['0'] else natDigitChars n

/-- Digit run of an exponent with its sign, `0` when the run is empty (JS
backtracks to the longest valid literal prefix, so `1e` parses as `1`). -/
def expDigits (sg : ℤ) (t : Chars) : ℤ :=
  let eds := t.takeWhile fun c => c.isDigit
  if eds = [] then 0 else sg * (digitsValL eds : ℤ)

/-- Sign-and-digits tail of an exponent part. -/
def expTail : Chars → ℤ
  | '-' :: t => expDigits (-1) t
  | '+' :: t => expDigits 1 t
  | t => expDigits 1 t

/-- Optional exponent suffix of a JS numeric literal (`0` when absent or
malformed). -/
def expValL : Chars → ℤ
  | 'e' :: r => expTail r
  | 'E' :: r => expTail r
  | _ => 0

/-- Outcome of scanning a JS numeric literal: acceptance flag, sign, integer
digits value, fraction digits value and count, exponent.  This purely
syntactic stage is separated from the rational assembly so that concrete
inputs evaluate by kernel reduction. -/
structure FloatScan where
  ok : Bool
  neg : Bool
  intVal : ℕ
  fracVal : ℕ
  fracLen : ℕ
  exp : ℤ
deriving Repr, DecidableEq

/-- Scan of the magnitude part `Digits [. Digits] [e/E [sign] Digits]`; the
scan fails (JS NaN) when no digit appears before the exponent part.  The
`Infinity` keyword of JS `parseFloat` is not modelled. -/
def scanFloatMag (neg : Bool) (l : Chars) : FloatScan :=
  let ds1 := l.takeWhile fun c => c.isDigit
  let l2 := l.dropWhile fun c => c.isDigit
  let ds2 := if l2.head? = some '.' then l2.tail.takeWhile (fun c => c.isDigit) else []
  let l3 := if l2.head? = some '.' then l2.tail.dropWhile (fun c => c.isDigit) else l2
  if ds1 = [] ∧ ds2 = [] then ⟨false, neg, 0, 0, 0, 0⟩
  else ⟨true, neg, digitsValL ds1, digitsValL ds2, ds2.length, expValL l3⟩

/-- Scan of a JS numeric literal: skip leading whitespace, read an optional
sign, then scan the magnitude. -/
def scanFloat (l : Chars) : FloatScan :=
  let l1 := l.dropWhile ws
  if l1.head? = some '-' then scanFloatMag true l1.tail
  else if l1.head? = some '+' then scanFloatMag false l1.tail
  else scanFloatMag false l1

/-- Rational value of a successful scan, `none` (JS NaN) otherwise. -/
def floatVal (s : FloatScan) : Option ℚ :=
  if s.ok then
    some ((if s.neg then -1 else 1)
      * ((s.intVal : ℚ) + (s.fracVal : ℚ) / 10 ^ s.fracLen) * 10 ^ s.exp)
  else none

/-- Model of JS `parseFloat` on a character list; `none` models `NaN`. -/
def parseFloatL (l : Chars) : Option ℚ := floatVal (scanFloat l)

/-- Model of JS `parseFloat` on a string. -/
def parseFloat (s : String) : Option ℚ := parseFloatL s.toList

/-- The integer `toFixed f` rounds the scaled magnitude to: round half away
from zero, applied to the absolute value as the ECMAScript algorithm does. -/
def jsRoundScaled (f : ℕ) (q : ℚ) : ℕ := (Rat.floor (|q| * 10 ^ f + 1 / 2)).toNat

/-- Ideal-arithmetic value produced by parsing back the `toFixed f` rendering
of `q`: the magnitude rounded to `f` decimal places, with the sign of `q`. -/
def jsRound (f : ℕ) (q : ℚ) : ℚ :=
  (if q < 0 then -1 else 1) * (jsRoundScaled f q : ℚ) / 10 ^ f

/-- Character form of `Number.prototype.toFixed(f)` (idealised to exact
decimal arithmetic; the huge-magnitude fallback of ECMAScript is outside the
model).  `none` (NaN) renders as `"NaN"`. -/
def toFixedL (f : ℕ) (x : Option ℚ) : Chars :=
  match x with
  | none => ['N', 'a', 'N']
  | some q =>
    let n := jsRoundScaled f q
    (if q < 0 then ['-'] else [])
      ++ (if f = 0 then natToStrL n
          else natToStrL (n / 10 ^ f) ++ '.' ::
            (List.replicate (f - (natDigitChars (n % 10 ^ f)).length) '0'
              ++ natDigitChars (n % 10 ^ f)))

/-- One point of the SP1 data model (interface `SP1Point`): both coordinates
may be JS `NaN` (here `none`); `elevation` is an optional field that is only
ever a real number; `attributes` is a JS object, i.e. an insertion-ordered
map. -/
structure SP1Point where
  id : String
  x : Option ℚ
  y : Option ℚ
  elevation : Option ℚ := none
  attributes : List (String × String) := []
deriving Repr, DecidableEq

/-- Header of an SP1 file (interface `SP1Header`); `comments = []` models the
field being absent (`undefined`), which is how the reader leaves it until the
first comment line. -/
structure SP1Header where
  version : Option String := none
  survey : Option String := none
  datum : Option String := none
  projection : Option String := none
  comments : List String := []
deriving Repr, DecidableEq

/-- The shared structured model (interface `SP1Data`). -/
structure SP1Data where
  header : SP1Header
  points : List SP1Point
deriving Repr, DecidableEq

/-- Mutable state of the `parseSP1File` loop. -/
structure ParseState where
  header : SP1Header
  points : List SP1Point
  inHeader : Bool
deriving Repr, DecidableEq

/-- Header update for a recognised `key: value` line (the `switch` statement
of the source; unrecognised keys leave the header unchanged). -/
def setHeaderField (h : SP1Header) (key : Chars) (value : String) : SP1Header :=
  let k := String.mk (key.map Char.toLower)
  if k = "version" then { h with version := some value }
  else if k = "survey" then { h with survey := some value }
  else if k = "datum" then { h with datum := some value }
  else if k = "projection" then { h with projection := some value }
  else h

/-- Point built from the whitespace tokens of a data line with at least three
tokens: token 0 is the id, tokens 1 and 2 the coordinates; token 3 becomes
the elevation exactly when `parseFloat` accepts it (`parts.length > 3 &&
!isNaN(parseFloat(parts[3]))` in the source); tokens from index 4 on become
attributes keyed `attr1`, `attr2`, …. -/
def mkPointL (parts : List Chars) : SP1Point :=
  { id := String.mk (parts.headD [])
    x := parseFloatL (parts.getD 1 [])
    y := parseFloatL (parts.getD 2 [])
    elevation := if 3 < parts.length then parseFloatL (parts.getD 3 []) else none
    attributes := (List.range (parts.length - 4)).map
      (fun i => (String.mk ('a' :: 't' :: 't' :: 'r' :: natToStrL (i + 1)),
        String.mk (parts.getD (i + 4) []))) }

/-- Whitespace tokenisation of a data line: `line.split(/\s+/)` on a trimmed
line (the source only tokenises trimmed non-empty lines, where the regex
split never produces empty pieces). -/
def wsTokens (line : Chars) : List Chars := (splitByL ws line).filter (· ≠ [])

/-- Body of the `for` loop of `parseSP1File`, one (already trimmed) line. -/
def processLineL (st : ParseState) (line : Chars) : ParseState :=
  if line = [] ∨ line.head? = some '#' then
    if line.head? = some '#' then
      { st with header :=
          { st.header with comments :=
              st.header.comments ++ [String.mk (jsTrimL (line.drop 1))] } }
    else st
  else if st.inHeader ∧ line.contains ':' then
    let parts := (splitByL (· = ':') line).map jsTrimL
    { st with header :=
        setHeaderField st.header (parts.headD []) (String.mk (parts.getD 1 [])) }
  else
    let st2 : ParseState := { st with inHeader := false }
    let parts := wsTokens line
    if 3 ≤ parts.length then { st2 with points := st2.points ++ [mkPointL parts] }
    else st2

/-- Line preprocessing shared by both readers:
`content.split('\n').map(l => l.trim()).filter(Boolean)`. -/
def contentLines (content : String) : List Chars :=
  ((splitByL (· = '\n') content.toList).map jsTrimL).filter (· ≠ [])

/-- Model of `parseSP1File` (the SP1Reader). -/
def parseSP1File (content : String) : SP1Data :=
  let st := (contentLines content).foldl processLineL ⟨{}, [], true⟩
  ⟨st.header, st.points⟩

/-- Concatenation of a list of pieces with a separator between consecutive
pieces (model of JS `Array.prototype.flatten`). -/
def jsJoinL (sep : Chars) : List Chars → Chars
  | [] => []
  | [x] => x
  | x :: y :: xs => x ++ sep ++ jsJoinL sep (y :: xs)

/-- Tab-separated fields of the data line written for one point: id, the two
coordinates at six decimals, the elevation at three decimals when present,
then every attribute value in insertion order.  The source builds the same
string by starting from the three mandatory fields and appending `\t${v}`
for each optional one. -/
def pointTokensL (p : SP1Point) : List Chars :=
  [p.id.toList, toFixedL 6 p.x, toFixedL 6 p.y]
    ++ (match p.elevation with
        | some e => [toFixedL 3 (some e)]
        | none => [])
    ++ p.attributes.map (fun kv => kv.2.toList)

/-- Data line written for one point (without the trailing newline). -/
def pointLineL (p : SP1Point) : Chars := jsJoinL ['\t'] (pointTokensL p)

/-- Emission of one optional header field as a `Key: value` line; an absent
field and an empty string (falsy in the JS `if`) both emit nothing. -/
def headerLineBlock (label : String) : Option String → Chars
  | some s => if s = "" then [] else label.toList ++ s.toList ++ ['\n']
  | none => []

/-- Model of `generateSP1Content` (the SP1Writer): comment lines, the four
header fields in fixed order, one blank separator line, then one line per
point.  A non-empty comment list emits `comments.map(c => '# ' + c)` joined
with newlines plus a trailing newline (the JS truthiness test on the array is
modelled by emptiness, the only way the reader ever leaves the field). -/
def generateSP1Content (data : SP1Data) : String :=
  String.mk (
    (if data.header.comments = [] then []
     else jsJoinL ['\n']
        (data.header.comments.map (fun c => '#' :: ' ' :: c.toList)) ++ ['\n'])
    ++ headerLineBlock "Version: " data.header.version
    ++ headerLineBlock "Survey: " data.header.survey
    ++ headerLineBlock "Datum: " data.header.datum
    ++ headerLineBlock "Projection: " data.header.projection
    ++ ['\n']
    ++ (data.points.map (fun p => pointLineL p ++ ['\n'])).flatten)

/-- One GeoJSON Feature as built by `convertToGeoJSON`: the `type` fields are
carried as data so the embedding states exactly what the object literal
contains; `properties` holds `id`, `elevation` and the spread attributes. -/
structure GeoFeature where
  featureType : String
  geometryType : String
  coordinates : List (Option ℚ)
  propId : String
  propElevation : Option ℚ
  propAttributes : List (String × String)
deriving Repr, DecidableEq

/-- The FeatureCollection object returned by `convertToGeoJSON`. -/
structure GeoJSONResult where
  collectionType : String
  features : List GeoFeature
  crsType : String
  crsName : String
deriving Repr, DecidableEq

/-- Model of `convertToGeoJSON` (the GeoJSONExporter).  The third coordinate
is the JS expression `point.elevation || 0`, which on this model's elevation
values (`undefined`, `0`, or a number) coincides with `getD 0`; the CRS name
is `header.projection || 'EPSG:4326'`, where an empty projection string is
falsy. -/
def convertToGeoJSON (d : SP1Data) : GeoJSONResult :=
  { collectionType := "FeatureCollection"
    features := d.points.map (fun p =>
      { featureType := "Feature"
        geometryType := "Point"
        coordinates := [p.x, p.y, some (p.elevation.getD 0)]
        propId := p.id
        propElevation := p.elevation
        propAttributes := p.attributes })
    crsType := "name"
    crsName :=
      match d.header.projection with
      | some s => if s = "" then "EPSG:4326" else s
      | none => "EPSG:4326" }

/-- Smallest decimal exponent (up to 20) clearing the denominator, when the
rational has a terminating decimal expansion. -/
def decExpOf (den : ℕ) : Option ℕ := (List.range 21).find? (fun k => 10 ^ k % den = 0)

/-- Model of the default JS number-to-string conversion on this model's exact
rationals: sign, then the exact decimal expansion without trailing zeros (an
integer prints with no decimal point), matching `String(x)` for doubles whose
value terminates; rationals without a terminating expansion (unreachable
through the parsers, which only produce decimal values) fall back to a
fraction rendering. -/
def qToStrL (q : ℚ) : Chars :=
  (if q < 0 then ['-'] else []) ++
  match decExpOf q.den with
  | some k =>
    let m := q.num.natAbs * 10 ^ k / q.den
    if k = 0 then natToStrL m
    else natToStrL (m / 10 ^ k) ++ '.' ::
      (List.replicate (k - (natDigitChars (m % 10 ^ k)).length) '0'
        ++ natDigitChars (m % 10 ^ k))
  | none => natToStrL q.num.natAbs ++ '/' :: natToStrL q.den

/-- Template-literal rendering of a JS number of this model (NaN included). -/
def numToStrL (x : Option ℚ) : Chars :=
  match x with
  | none => ['N', 'a', 'N']
  | some q => qToStrL q

/-- Model of adding one element to a JS `Set` of strings: insertion order is
kept, duplicates are dropped. -/
def jsSetInsert (keys : List String) (k : String) : List String :=
  if k ∈ keys then keys else keys ++ [k]

/-- The `allAttributes` set of `convertToCSV`: every attribute key of every
point, in first-encounter order. -/
def allAttributeKeys (d : SP1Data) : List String :=
  d.points.foldl (fun acc p => p.attributes.foldl (fun a kv => jsSetInsert a kv.1) acc) []

/-- Lexicographic comparison of character lists by code point, the order the
default `Array.prototype.sort` comparator applies to strings (JS compares
UTF-16 code units; on the Basic Multilingual Plane the two agree). -/
def lexLeB : Chars → Chars → Bool
  | [], _ => true
  | _ :: _, [] => false
  | a :: as, b :: bs =>
    if a.toNat < b.toNat then true
    else if b.toNat < a.toNat then false
    else lexLeB as bs

/-- String comparison used for sorting attribute keys. -/
def strLeB (a b : String) : Bool := lexLeB a.toList b.toList

/-- Insertion into a list sorted by `strLeB`. -/
def orderedInsertStr (k : String) : List String → List String
  | [] => [k]
  | x :: xs => if strLeB k x then k :: x :: xs else x :: orderedInsertStr k xs

/-- Insertion sort by `strLeB`, the model of `Array.from(set).sort()`. -/
def sortStrs : List String → List String
  | [] => []
  | x :: xs => orderedInsertStr x (sortStrs xs)

/-- The sorted attribute-key columns of the CSV export. -/
def attributeKeysSorted (d : SP1Data) : List String := sortStrs (allAttributeKeys d)

/-- Header row of the CSV export (without the trailing newline). -/
def csvHeaderRowL (d : SP1Data) : Chars :=
  "ID,X,Y,Elevation".toList
    ++ ((attributeKeysSorted d).map (fun k => ',' :: k.toList)).flatten

/-- Elevation field of a CSV data row: the JS template inserts
`point.elevation || ''`, so an absent elevation and a zero elevation both
print as the empty field. -/
def csvElevField : Option ℚ → Chars
  | some q => if q = 0 then [] else qToStrL q
  | none => []

/-- Attribute field value `point.attributes?.[key] || ''` of a CSV data row. -/
def jsAttrValue (p : SP1Point) (k : String) : String := (p.attributes.lookup k).getD ""

/-- One data row of the CSV export (without the trailing newline). -/
def csvRowL (keys : List String) (p : SP1Point) : Chars :=
  p.id.toList ++ ',' :: numToStrL p.x ++ ',' :: numToStrL p.y
    ++ ',' :: csvElevField p.elevation
    ++ (keys.map (fun k => ',' :: (jsAttrValue p k).toList)).flatten

/-- Data rows of the CSV export, each with its trailing newline. -/
def csvRowsL (d : SP1Data) : Chars :=
  (d.points.map (fun p => csvRowL (attributeKeysSorted d) p ++ ['\n'])).flatten

/-- Model of `convertToCSV` (the CSVExporter). -/
def convertToCSV (d : SP1Data) : String :=
  String.mk (csvHeaderRowL d ++ '\n' :: csvRowsL d)

/-- The two failure kinds of the CSV reader: `Empty CSV file` and `CSV must
contain ID, X, and Y columns` in the source. -/
inductive CSVError where
  | emptyInput
  | missingColumns
deriving Repr, DecidableEq

/-- Case-insensitive exact match against the column-name pattern `^id$`. -/
def isIdCol (s : String) : Bool := s.toList.map Char.toLower == ['i', 'd']

/-- Case-insensitive exact match against the column-name pattern `^x$`. -/
def isXCol (s : String) : Bool := s.toList.map Char.toLower == ['x']

/-- Case-insensitive exact match against the column-name pattern `^y$`. -/
def isYCol (s : String) : Bool := s.toList.map Char.toLower == ['y']

/-- Case-insensitive exact match against `^(elevation|z)$`. -/
def isElevCol (s : String) : Bool :=
  s.toList.map Char.toLower == "elevation".toList || s.toList.map Char.toLower == ['z']

/-- Assignment `attributes[k] = v` on a JS object modelled as an ordered
association list: an existing key keeps its position and gets the new value,
a new key is appended. -/
def jsObjInsert (l : List (String × String)) (k v : String) : List (String × String) :=
  if l.any (fun kv => kv.1 == k) then l.map (fun kv => if kv.1 == k then (k, v) else kv)
  else l ++ [(k, v)]

/-- Comma-split-and-trim of one CSV line into cell strings. -/
def csvCells (line : Chars) : List String :=
  (splitByL (· = ',') line).map (fun c => String.mk (jsTrimL c))

/-- Point built from one CSV data row (already split into cells).  A cell
read beyond the row's length is JS `undefined`, modelled as `""` (both are
falsy and `parseFloat` rejects both).  The elevation cell is used only when
the elevation column exists, the cell is non-empty, and it parses; every
other column index except the four located ones contributes an attribute
keyed by the original column name when its cell is non-empty. -/
def csvRowPoint (cols : List String) (idI xI yI : ℕ) (elevI : Option ℕ)
    (values : List String) : SP1Point :=
  { id := values.getD idI ""
    x := parseFloat (values.getD xI "")
    y := parseFloat (values.getD yI "")
    elevation :=
      match elevI with
      | some k =>
        if values.getD k "" ≠ "" ∧ (parseFloat (values.getD k "")).isSome then
          parseFloat (values.getD k "")
        else none
      | none => none
    attributes := (List.range cols.length).foldl (fun acc j =>
      if j ≠ idI ∧ j ≠ xI ∧ j ≠ yI ∧ some j ≠ elevI then
        (if values.getD j "" ≠ "" then jsObjInsert acc (cols.getD j "") (values.getD j "")
         else acc)
      else acc) [] }

/-- Model of `parseCSVToSP1` (the CSVReader).  The caller-supplied header is
attached verbatim; the two `throw new Error(...)` sites become the two
`CSVError` values. -/
def parseCSVToSP1 (csvContent : String) (header : SP1Header) : Except CSVError SP1Data :=
  let lines := contentLines csvContent
  if lines = [] then .error .emptyInput
  else
    let columns := csvCells (lines.headD [])
    match columns.findIdx? isIdCol, columns.findIdx? isXCol, columns.findIdx? isYCol with
    | some idI, some xI, some yI =>
      let elevI := columns.findIdx? isElevCol
      let points := (lines.drop 1).foldl (fun acc line =>
        let values := csvCells line
        if values.length < 3 then acc
        else acc ++ [csvRowPoint columns idI xI yI elevI values]) []
      .ok ⟨header, points⟩
    | _, _, _ => .error .missingColumns

/-- Little-endian value of a digit list (head is the least significant). -/
def valLE : List ℕ → ℕ
  | [] => 0
  | d :: ds => d + 10 * valLE ds

/-- Concatenation of lines, each terminated by a newline. -/
def lineBlockL (ls : List Chars) : Chars := (ls.map (fun l => l ++ ['\n'])).flatten

/-- The (at most one) `Key: value` line emitted for one header field. -/
def fieldLines (label : String) : Option String → List Chars
  | some s => if s = "" then [] else [label.toList ++ s.toList]
  | none => []

/-- Comment lines emitted by the writer, without their newlines. -/
def commentLinesOf (d : SP1Data) : List Chars :=
  d.header.comments.map (fun c => '#' :: ' ' :: c.toList)

/-- Header-field lines emitted by the writer, in the fixed field order. -/
def hdrLinesOf (d : SP1Data) : List Chars :=
  fieldLines "Version: " d.header.version ++ fieldLines "Survey: " d.header.survey
    ++ fieldLines "Datum: " d.header.datum ++ fieldLines "Projection: " d.header.projection

/-- Every line of the writer's output, in order: comments, header fields, one
blank separator, one line per point. -/
def emittedLinesOf (d : SP1Data) : List Chars :=
  commentLinesOf d ++ hdrLinesOf d ++ [[]] ++ d.points.map pointLineL

/-- A whitespace token as produced by the reader: non-empty and containing no
whitespace. -/
def goodToken (t : Chars) : Prop := t ≠ [] ∧ ∀ c ∈ t, ws c = false

/-- Shape invariant of every point the SP1 reader produces: id and attribute
values are whitespace tokens, and the id does not begin the comment marker. -/
def goodPoint (p : SP1Point) : Prop :=
  goodToken p.id.toList ∧ p.id.toList.head? ≠ some '#' ∧
    ∀ kv ∈ p.attributes, goodToken (kv.2 : String).toList

/-- Shape invariant of an optional header field the SP1 reader produces: its
value spans no line break. -/
def goodHeaderOpt (v : Option String) : Prop := ∀ s, v = some s → '\n' ∉ s.toList

/-- Shape invariant of everything the SP1 reader produces. -/
def goodData (d : SP1Data) : Prop :=
  (∀ p ∈ d.points, goodPoint p) ∧
  goodHeaderOpt d.header.version ∧ goodHeaderOpt d.header.survey ∧
  goodHeaderOpt d.header.datum ∧ goodHeaderOpt d.header.projection ∧
  ∀ c ∈ d.header.comments, '\n' ∉ (c : String).toList

/-! Basic facts about the splitting and trimming helpers. -/

theorem splitByL_ne_nil (p : Char → Bool) (l : Chars) : splitByL p l ≠ [] := by
  cases l with
  | nil => simp [splitByL]
  | cons c cs =>
    simp only [splitByL]
    by_cases h : p c = true <;> simp [h]

theorem splitByL_no_sep (p : Char → Bool) (l : Chars) (h : ∀ c ∈ l, p c = false) :
    splitByL p l = [l] := by
  induction l with
  | nil => rfl
  | cons c cs ih =>
    have hc : p c = false := h c (by simp)
    have hr : splitByL p cs = [cs] := ih (fun d hd => h d (by simp [hd]))
    simp [splitByL, hc, hr]


theorem splitByL_append_sep (p : Char → Bool) (l1 l2 : Chars) (c : Char)
    (h1 : ∀ d ∈ l1, p d = false) (hc : p c = true) :
    splitByL p (l1 ++ c :: l2) = l1 :: splitByL p l2 := by
  induction l1 with
  | nil => simp [splitByL, hc]
  | cons a as ih =>
    have ha : p a = false := h1 a (by simp)
    have hr := ih (fun d hd => h1 d (by simp [hd]))
    show splitByL p (a :: (as ++ c :: l2)) = (a :: as) :: splitByL p l2
    simp only [splitByL, hr]
    simp [ha]

theorem mem_splitByL_no_sep (p : Char → Bool) (l : Chars) :
    ∀ part ∈ splitByL p l, ∀ c ∈ part, p c = false := by
  induction l with
  | nil => simp [splitByL]
  | cons a as ih =>
    intro part hpart c hcpart
    rcases hsp : splitByL p as with _ | ⟨x, xs⟩
    · exact absurd hsp (splitByL_ne_nil p as)
    · simp only [splitByL, hsp] at hpart
      by_cases ha : p a = true
      · simp [ha] at hpart
        rcases hpart with h | h | h
        · simp [h] at hcpart
        · exact ih part (by simp [hsp, h]) c hcpart
        · exact ih part (by simp [hsp, h]) c hcpart
      · simp [ha] at hpart
        rcases hpart with h | h
        · subst h
          simp at hcpart
          rcases hcpart with h | h
          · subst h; simpa using ha
          · exact ih x (by simp [hsp]) c h
        · exact ih part (by simp [hsp, h]) c hcpart

/-! Facts about trimming. -/

theorem dropWhile_append_singleton (p : Char → Bool) (xs : Chars) (a : Char)
    (ha : p a = false) : (xs ++ [a]).dropWhile p = xs.dropWhile p ++ [a] := by
  induction xs with
  | nil => simp [List.dropWhile, ha]
  | cons b bs ih =>
    by_cases hb : p b = true <;> simp [List.dropWhile, hb, ih]

theorem rtrimL_cons_not_ws (a : Char) (l : Chars) (ha : ws a = false) :
    rtrimL (a :: l) = a :: rtrimL l := by
  unfold rtrimL
  rw [List.reverse_cons, dropWhile_append_singleton ws l.reverse a ha]
  simp

theorem jsTrimL_cons_not_ws (a : Char) (l : Chars) (ha : ws a = false) :
    jsTrimL (a :: l) = a :: rtrimL l := by
  unfold jsTrimL
  rw [List.dropWhile_cons_of_neg (by simp [ha]), rtrimL_cons_not_ws a l ha]

theorem dropWhile_eq_self_of_head (p : Char → Bool) (l : Chars)
    (h : ∀ c, l.head? = some c → p c = false) : l.dropWhile p = l := by
  cases l with
  | nil => rfl
  | cons a as => exact List.dropWhile_cons_of_neg (by simp [h a rfl])

theorem rtrimL_eq_self_of_last (l : Chars)
    (h : ∀ c, l.getLast? = some c → ws c = false) : rtrimL l = l := by
  unfold rtrimL
  rw [dropWhile_eq_self_of_head ws l.reverse (fun c hc => h c (by rwa [List.head?_reverse] at hc))]
  simp

theorem jsTrimL_eq_self (l : Chars)
    (hh : ∀ c, l.head? = some c → ws c = false)
    (hl : ∀ c, l.getLast? = some c → ws c = false) : jsTrimL l = l := by
  unfold jsTrimL
  rw [dropWhile_eq_self_of_head ws l hh, rtrimL_eq_self_of_last l hl]

theorem rtrimL_prefix (l : Chars) : rtrimL l <+: l := by
  unfold rtrimL
  have h : l.reverse.dropWhile ws <:+ l.reverse := List.dropWhile_suffix ws
  rcases h with ⟨pre, hpre⟩
  refine ⟨pre.reverse, ?_⟩
  rw [← List.reverse_append, hpre, List.reverse_reverse]

theorem head?_jsTrimL_not_ws (l : Chars) :
    ∀ c, (jsTrimL l).head? = some c → ws c = false := by
  intro c hc
  unfold jsTrimL at hc
  have hpre := rtrimL_prefix (l.dropWhile ws)
  rcases hpre with ⟨suf, hsuf⟩
  have hd : (l.dropWhile ws).head? = some c := by
    rw [← hsuf]
    rcases hrt : rtrimL (l.dropWhile ws) with _ | ⟨b, bs⟩
    · rw [hrt] at hc; simp at hc
    · rw [hrt] at hc; simpa using hc
  have := List.head?_dropWhile_not ws l
  rw [hd] at this
  simpa using this

theorem getLast?_rtrimL_not_ws (l : Chars) :
    ∀ c, (rtrimL l).getLast? = some c → ws c = false := by
  intro c hc
  unfold rtrimL at hc
  rw [List.getLast?_reverse] at hc
  have := List.head?_dropWhile_not ws l.reverse
  rw [hc] at this
  simpa using this

theorem getLast?_jsTrimL_not_ws (l : Chars) :
    ∀ c, (jsTrimL l).getLast? = some c → ws c = false := by
  intro c hc
  exact getLast?_rtrimL_not_ws (l.dropWhile ws) c hc

theorem jsTrimL_idem (l : Chars) : jsTrimL (jsTrimL l) = jsTrimL l :=
  jsTrimL_eq_self (jsTrimL l) (head?_jsTrimL_not_ws l) (getLast?_jsTrimL_not_ws l)

/-! Claim C9: comment lines. -/

/-- C9: every processed line beginning with `#` — in header mode or after the
one-way transition to data mode alike — has its remainder (marker stripped,
trimmed) appended to `header.comments` in encounter order, is never parsed as
a data point (the point list is unchanged), and never changes the
header/data mode flag. -/
theorem comment_lines_always_comments (st : ParseState) (line : Chars)
    (h : line.head? = some '#') :
    processLineL st line =
      { st with header :=
          { st.header with comments :=
              st.header.comments ++ [String.mk (jsTrimL (line.drop 1))] } } ∧
    (processLineL st line).points = st.points ∧
    (processLineL st line).inHeader = st.inHeader := by
  have hcond : (line = [] ∨ line.head? = some '#') := Or.inr h
  refine ⟨?_, ?_, ?_⟩ <;> simp [processLineL, hcond, h]

/-- Witness for C9 at a concrete comment line met in data mode. -/
theorem comment_lines_always_comments_witness :
    processLineL ⟨{}, [], false⟩ ['#', ' ', 'h', 'i'] =
      { header := { comments := ["hi"] }, points := [], inHeader := false } := by
  have h := comment_lines_always_comments ⟨{}, [], false⟩ ['#', ' ', 'h', 'i'] rfl
  rw [h.1]
  decide

/-! Claim C1: header `key: value` lines are split at every colon, and the
stored value is only the second piece.  The claim as frozen (value = whole
trimmed text after the first colon) is refuted below, because
`line.split(':')` splits at every colon and the destructuring keeps
`parts[1]` only. -/

/-- C1 counterexample: for `Projection: EPSG:32633` the stored projection is
the piece between the two colons, `"EPSG"`, not the whole trimmed tail
`"EPSG:32633"` after the first colon. -/
theorem header_value_not_tail_after_first_colon :
    (parseSP1File "Projection: EPSG:32633").header.projection = some "EPSG" ∧
    some ("EPSG" : String) ≠ some ("EPSG:32633" : String) := by
  constructor
  · decide
  · decide

/-- C1 (amended): while header mode is active, a non-comment line containing
a colon is split at every colon with all pieces trimmed; for a recognised
key (case-insensitive `version`/`survey`/`datum`/`projection`) the stored
value is the trimmed piece between the first and the second colon (the whole
trimmed remainder only when the line has a single colon). -/
theorem header_value_between_first_two_colons (st : ParseState) (line : Chars)
    (h1 : st.inHeader = true) (h2 : line ≠ []) (h3 : line.head? ≠ some '#')
    (h4 : line.contains ':' = true) :
    ((String.mk ((((splitByL (· = ':') line).map jsTrimL).headD []).map Char.toLower)
        = "version" →
      (processLineL st line).header.version =
        some (String.mk (((splitByL (· = ':') line).map jsTrimL).getD 1 []))) ∧
     (String.mk ((((splitByL (· = ':') line).map jsTrimL).headD []).map Char.toLower)
        = "survey" →
      (processLineL st line).header.survey =
        some (String.mk (((splitByL (· = ':') line).map jsTrimL).getD 1 []))) ∧
     (String.mk ((((splitByL (· = ':') line).map jsTrimL).headD []).map Char.toLower)
        = "datum" →
      (processLineL st line).header.datum =
        some (String.mk (((splitByL (· = ':') line).map jsTrimL).getD 1 []))) ∧
     (String.mk ((((splitByL (· = ':') line).map jsTrimL).headD []).map Char.toLower)
        = "projection" →
      (processLineL st line).header.projection =
        some (String.mk (((splitByL (· = ':') line).map jsTrimL).getD 1 [])))) := by
  have hcond : ¬(line = [] ∨ line.head? = some '#') := by
    intro hor
    rcases hor with h | h
    · exact h2 h
    · exact h3 h
  refine ⟨?_, ?_, ?_, ?_⟩ <;>
    intro hk <;>
      simp only [processLineL, hcond, if_false, h1, h4, and_self, if_true, reduceIte,
        setHeaderField, hk] <;>
      simp [setHeaderField, hk]

/-- Witness for C1 (amended) at the counterexample's input. -/
theorem header_value_between_first_two_colons_witness :
    (processLineL ⟨{}, [], true⟩ "Projection: EPSG:32633".toList).header.projection =
      some "EPSG" := by
  have h := header_value_between_first_two_colons ⟨{}, [], true⟩
    "Projection: EPSG:32633".toList rfl (by decide) (by decide) (by decide)
  have hv := h.2.2.2 (by decide)
  rw [hv]
  decide

/-! Claim C7: GeoJSON export. -/

/-- C7 (amended): `convertToGeoJSON` yields a FeatureCollection with exactly
one Feature per point, in input order, each with Point geometry whose
coordinates are `[x, y, e]` where `e` is the elevation when present and `0`
when absent; the `crs` names `header.projection` when it is present and
non-empty, and the literal `EPSG:4326` when the projection is absent — or
the empty string, which the JS truthiness test also sends to the default
(the correction to the frozen claim). -/
theorem geojson_features_and_crs (d : SP1Data) :
    (convertToGeoJSON d).collectionType = "FeatureCollection" ∧
    (convertToGeoJSON d).features.length = d.points.length ∧
    ((convertToGeoJSON d).features.map (fun f => f.coordinates) =
      d.points.map (fun p => [p.x, p.y,
        match p.elevation with
        | some e => some e
        | none => some 0])) ∧
    (∀ f ∈ (convertToGeoJSON d).features,
      f.featureType = "Feature" ∧ f.geometryType = "Point") ∧
    (∀ s, d.header.projection = some s → s ≠ "" → (convertToGeoJSON d).crsName = s) ∧
    ((d.header.projection = none ∨ d.header.projection = some "") →
      (convertToGeoJSON d).crsName = "EPSG:4326") := by
  refine ⟨rfl, by simp [convertToGeoJSON], ?_, ?_, ?_, ?_⟩
  · simp only [convertToGeoJSON, List.map_map]
    apply List.map_congr_left
    intro p _
    simp only [Function.comp]
    congr 1
    cases p.elevation <;> simp
  · intro f hf
    simp [convertToGeoJSON] at hf
    rcases hf with ⟨p, _, hp⟩
    simp [← hp]
  · intro s hs hne
    simp [convertToGeoJSON, hs, hne]
  · intro hcase
    rcases hcase with h | h <;> simp [convertToGeoJSON, h]

/-- C7 counterexample: with a present but empty projection string the CRS
name falls back to `EPSG:4326` instead of naming the (present) projection. -/
theorem geojson_crs_empty_projection :
    (⟨{ projection := some "" }, []⟩ : SP1Data).header.projection = some "" ∧
    (convertToGeoJSON ⟨{ projection := some "" }, []⟩).crsName = "EPSG:4326" ∧
    ("EPSG:4326" : String) ≠ "" := by
  refine ⟨rfl, by decide, by decide⟩

/-- Witness for C7 (amended) at a concrete one-point dataset. -/
theorem geojson_features_and_crs_witness :
    (convertToGeoJSON ⟨{ projection := some "EPSG:32633" },
        [{ id := "P1", x := some 1, y := some 2 }]⟩).crsName = "EPSG:32633" ∧
    (convertToGeoJSON ⟨{ projection := some "EPSG:32633" },
        [{ id := "P1", x := some 1, y := some 2 }]⟩).features.length = 1 := by
  constructor
  · exact (geojson_features_and_crs _).2.2.2.2.1 "EPSG:32633" rfl (by decide)
  · exact (geojson_features_and_crs _).2.1

/-! Shape lemmas for the three branches of the SP1 reader loop body. -/

theorem processLineL_comment (st : ParseState) (line : Chars)
    (h : line.head? = some '#') :
    processLineL st line =
      { st with header :=
          { st.header with comments :=
              st.header.comments ++ [String.mk (jsTrimL (line.drop 1))] } } := by
  simp [processLineL, Or.inr h, h]

theorem processLineL_header (st : ParseState) (line : Chars)
    (h2 : line ≠ []) (h3 : line.head? ≠ some '#')
    (h1 : st.inHeader = true) (h4 : line.contains ':' = true) :
    processLineL st line =
      { st with header :=
          (setHeaderField st.header (((splitByL (· = ':') line).map jsTrimL).headD [])
            (String.mk (((splitByL (· = ':') line).map jsTrimL).getD 1 []))) } := by
  have hcond : ¬(line = [] ∨ line.head? = some '#') := by
    intro hor; rcases hor with h | h
    · exact h2 h
    · exact h3 h
  have h4m : ':' ∈ line := by simpa using h4
  simp [processLineL, hcond, h1, h4m]

theorem processLineL_data (st : ParseState) (line : Chars)
    (h2 : line ≠ []) (h3 : line.head? ≠ some '#')
    (h4 : ¬(st.inHeader = true ∧ line.contains ':' = true)) :
    processLineL st line =
      if 3 ≤ (wsTokens line).length then
        { st with inHeader := false, points := st.points ++ [mkPointL (wsTokens line)] }
      else { st with inHeader := false } := by
  have hcond : ¬(line = [] ∨ line.head? = some '#') := by
    intro hor; rcases hor with h | h
    · exact h2 h
    · exact h3 h
  simp only [processLineL]
  rw [if_neg hcond, if_neg h4]

/-! Claim C5: data-line tokenisation. -/

/-- C5: a data line (non-blank, non-comment, not consumed as a header line)
with fewer than 3 whitespace tokens is silently discarded; with at least 3
tokens it yields exactly one point whose id is token 0 and whose coordinates
parse tokens 1 and 2; the 4th token becomes the elevation exactly when it
parses, and tokens from index 4 on become attributes `attr(i-3)`. -/
theorem sp1_data_line_parsing (st : ParseState) (line : Chars)
    (h2 : line ≠ []) (h3 : line.head? ≠ some '#')
    (h4 : ¬(st.inHeader = true ∧ line.contains ':' = true)) :
    ((wsTokens line).length < 3 → (processLineL st line).points = st.points) ∧
    (3 ≤ (wsTokens line).length → (processLineL st line).points = st.points ++
      [{ id := String.mk ((wsTokens line).headD [])
         x := parseFloatL ((wsTokens line).getD 1 [])
         y := parseFloatL ((wsTokens line).getD 2 [])
         elevation :=
           if 3 < (wsTokens line).length ∧ (parseFloatL ((wsTokens line).getD 3 [])).isSome
           then parseFloatL ((wsTokens line).getD 3 []) else none
         attributes := (List.range ((wsTokens line).length - 4)).map
           (fun j => (String.mk ('a' :: 't' :: 't' :: 'r' :: natToStrL (j + 4 - 3)),
             String.mk ((wsTokens line).getD (j + 4) []))) }]) := by
  rw [processLineL_data st line h2 h3 h4]
  constructor
  · intro hlt
    rw [if_neg (by omega)]
  · intro hge
    rw [if_pos hge]
    simp only [mkPointL]
    refine congrArg (fun z => st.points ++ [z]) ?_
    have he : (if 3 < (wsTokens line).length then parseFloatL ((wsTokens line).getD 3 [])
        else none) =
        (if 3 < (wsTokens line).length ∧ (parseFloatL ((wsTokens line).getD 3 [])).isSome
         then parseFloatL ((wsTokens line).getD 3 []) else none) := by
      by_cases hl : 3 < (wsTokens line).length
      · rcases hp : parseFloatL ((wsTokens line).getD 3 []) with _ | q <;>
          simp [hl, hp]
      · simp [hl]
    have hj : ∀ j : ℕ, j + 4 - 3 = j + 1 := fun j => by omega
    simp only [he]
    simp [hj]

/-- Witness for C5 on the concrete data line `P 1 2 5 a` met in data mode. -/
theorem sp1_data_line_parsing_witness :
    (processLineL ⟨{}, [], false⟩ ['P', ' ', '1', ' ', '2', ' ', '5', ' ', 'a']).points =
      [{ id := "P", x := some 1, y := some 2, elevation := some 5,
         attributes := [("attr1", "a")] }] := by
  have h := sp1_data_line_parsing ⟨{}, [], false⟩
    ['P', ' ', '1', ' ', '2', ' ', '5', ' ', 'a'] (by decide) (by decide) (by decide)
  have hg := h.2 (by decide)
  rw [hg]
  have htok : wsTokens ['P', ' ', '1', ' ', '2', ' ', '5', ' ', 'a'] =
      [['P'], ['1'], ['2'], ['5'], ['a']] := by decide
  rw [htok]
  have he5 : parseFloatL [('5' : Char)] = some 5 := by
    have hs : scanFloat ['5'] = ⟨true, false, 5, 0, 0, 0⟩ := by decide
    rw [parseFloatL, hs]
    norm_num [floatVal]
  have hx1 : parseFloatL [('1' : Char)] = some 1 := by
    have hs : scanFloat ['1'] = ⟨true, false, 1, 0, 0, 0⟩ := by decide
    rw [parseFloatL, hs]
    norm_num [floatVal]
  have hy2 : parseFloatL [('2' : Char)] = some 2 := by
    have hs : scanFloat ['2'] = ⟨true, false, 2, 0, 0, 0⟩ := by decide
    rw [parseFloatL, hs]
    norm_num [floatVal]
  simp +decide [hx1, hy2, he5]

/-! Claim C6: totality of the SP1 reader and the empty-input result. -/

theorem processLineL_points_length (st : ParseState) (line : Chars) :
    (processLineL st line).points.length ≤ st.points.length + 1 := by
  by_cases hc : line = [] ∨ line.head? = some '#'
  · by_cases hh : line.head? = some '#'
    · rw [processLineL_comment st line hh]
      simp
    · have hline : line = [] := hc.resolve_right hh
      simp [processLineL, hline]
  · by_cases hdr : st.inHeader = true ∧ line.contains ':' = true
    · have hm : ':' ∈ line := by simpa using hdr.2
      simp [processLineL, hc, hdr.1, hm]
    · rw [processLineL_data st line (fun h => hc (Or.inl h)) (fun h => hc (Or.inr h)) hdr]
      split_ifs <;> simp

theorem foldl_processLineL_points_length (lines : List Chars) :
    ∀ st : ParseState,
      ((lines.foldl processLineL st).points).length ≤ st.points.length + lines.length := by
  induction lines with
  | nil => intro st; simp
  | cons l ls ih =>
    intro st
    calc ((ls.foldl processLineL (processLineL st l)).points).length
        ≤ (processLineL st l).points.length + ls.length := ih (processLineL st l)
      _ ≤ st.points.length + 1 + ls.length := by
          have := processLineL_points_length st l
          omega
      _ = st.points.length + (l :: ls).length := by simp; omega

/-- C6: the SP1 reader is a total function of its input — the embedding
returns an `SP1Data` for every string, the empty input yields an empty
header and no points, and the number of points never exceeds the number of
trimmed non-blank lines. -/
theorem sp1_reader_total_and_empty :
    (∀ content : String, ∃ d : SP1Data, parseSP1File content = d) ∧
    parseSP1File "" = ⟨{}, []⟩ ∧
    (∀ content : String,
      ((parseSP1File content).points).length ≤ (contentLines content).length) := by
  refine ⟨fun content => ⟨_, rfl⟩, by decide, fun content => ?_⟩
  have h := foldl_processLineL_points_length (contentLines content) ⟨{}, [], true⟩
  simpa [parseSP1File] using h

/-! Claim C4: the CSV reader's two failure kinds. -/

/-- C4: `parseCSVToSP1` fails with the empty-input error exactly when the
content has no non-blank line; otherwise it fails with the missing-columns
error exactly when the first (trimmed, comma-split) line has no cell matching
`^id$`, `^x$` or `^y$` case-insensitively; in every other case it returns a
result without raising. -/
theorem csv_reader_error_classification (c : String) (hd : SP1Header) :
    (parseCSVToSP1 c hd = .error .emptyInput ↔ contentLines c = []) ∧
    (parseCSVToSP1 c hd = .error .missingColumns ↔
      (contentLines c ≠ [] ∧
        ((∀ col ∈ csvCells ((contentLines c).headD []), isIdCol col = false) ∨
         (∀ col ∈ csvCells ((contentLines c).headD []), isXCol col = false) ∨
         (∀ col ∈ csvCells ((contentLines c).headD []), isYCol col = false)))) ∧
    ((contentLines c ≠ [] ∧
      ¬((∀ col ∈ csvCells ((contentLines c).headD []), isIdCol col = false) ∨
        (∀ col ∈ csvCells ((contentLines c).headD []), isXCol col = false) ∨
        (∀ col ∈ csvCells ((contentLines c).headD []), isYCol col = false))) →
      ∃ d, parseCSVToSP1 c hd = .ok d) := by
  by_cases hl : contentLines c = []
  · refine ⟨by simp [parseCSVToSP1, hl], by simp [parseCSVToSP1, hl], by simp [hl]⟩
  · have hnone : ∀ p : String → Bool,
        ((csvCells ((contentLines c).headD [])).findIdx? p = none ↔
          ∀ col ∈ csvCells ((contentLines c).headD []), p col = false) := by
      intro p
      rw [List.findIdx?_eq_none_iff]
    rcases hid : (csvCells ((contentLines c).headD [])).findIdx? isIdCol with _ | i <;>
      rcases hx : (csvCells ((contentLines c).headD [])).findIdx? isXCol with _ | j <;>
        rcases hy : (csvCells ((contentLines c).headD [])).findIdx? isYCol with _ | k <;>
      refine ⟨by simp only [parseCSVToSP1, if_neg hl, hid, hx, hy]; simp; exact hl,
        by simp only [parseCSVToSP1, if_neg hl, hid, hx, hy]
           simp only [← hnone, hid, hx, hy]
           simp [hl],
        fun hok => ?_⟩ <;>
      · rcases hok with ⟨hne, hnot⟩
        simp only [← hnone, hid, hx, hy] at hnot
        first
          | exact ⟨_, by simp only [parseCSVToSP1, if_neg hl, hid, hx, hy]; try rfl⟩
          | simp at hnot

/-- Witness for C4 on the three concrete outcomes: empty input, header
without the mandatory columns, and a well-formed header. -/
theorem csv_reader_error_classification_witness :
    parseCSVToSP1 "" {} = .error .emptyInput ∧
    parseCSVToSP1 "Name,Lat,Lon" {} = .error .missingColumns ∧
    ∃ d, parseCSVToSP1 "ID,X,Y" {} = .ok d := by
  refine ⟨(csv_reader_error_classification "" {}).1.mpr (by decide),
    (csv_reader_error_classification "Name,Lat,Lon" {}).2.1.mpr
      ⟨by decide, Or.inl (by decide)⟩,
    (csv_reader_error_classification "ID,X,Y" {}).2.2 ⟨by decide, by decide⟩⟩

/-! Sortedness facts for the CSV attribute columns. -/

theorem lexLeB_total (a b : Chars) : lexLeB a b = true ∨ lexLeB b a = true := by
  induction a generalizing b with
  | nil => left; rfl
  | cons x xs ih =>
    cases b with
    | nil => right; rfl
    | cons y ys =>
      rcases Nat.lt_trichotomy x.toNat y.toNat with h | h | h
      · left; simp [lexLeB, h]
      · rcases ih ys with h2 | h2
        · left; simp [lexLeB, h, h2]
        · right; simp [lexLeB, h.symm, h2]
      · right; simp [lexLeB, h]

theorem strLeB_total (a b : String) : strLeB a b = true ∨ strLeB b a = true :=
  lexLeB_total a.toList b.toList

theorem mem_orderedInsertStr (k a : String) (l : List String) :
    a ∈ orderedInsertStr k l ↔ a = k ∨ a ∈ l := by
  induction l with
  | nil => simp [orderedInsertStr]
  | cons x xs ih =>
    by_cases h : strLeB k x = true
    · simp [orderedInsertStr, h]
    · simp [orderedInsertStr, h, ih]
      tauto

theorem orderedInsertStr_perm (k : String) (l : List String) :
    List.Perm (orderedInsertStr k l) (k :: l) := by
  induction l with
  | nil => rfl
  | cons x xs ih =>
    by_cases h : strLeB k x = true
    · simp [orderedInsertStr, h]
    · simp only [orderedInsertStr, h, if_false]
      exact List.Perm.trans (ih.cons x) (List.Perm.swap k x xs)

theorem sortStrs_perm (l : List String) : List.Perm (sortStrs l) l := by
  induction l with
  | nil => rfl
  | cons x xs ih =>
    exact List.Perm.trans (orderedInsertStr_perm x (sortStrs xs)) (ih.cons x)

theorem lexLeB_trans (a : Chars) : ∀ b c : Chars, lexLeB a b = true →
    lexLeB b c = true → lexLeB a c = true := by
  induction a with
  | nil => intro b c _ _; rfl
  | cons x xs ih =>
    intro b c hab hbc
    cases b with
    | nil => simp [lexLeB] at hab
    | cons y ys =>
      cases c with
      | nil => simp [lexLeB] at hbc
      | cons z zs =>
        simp only [lexLeB] at hab hbc ⊢
        rcases Nat.lt_trichotomy x.toNat y.toNat with h1 | h1 | h1
        · rcases Nat.lt_trichotomy y.toNat z.toNat with h2 | h2 | h2
          · rw [if_pos (by omega : x.toNat < z.toNat)]
          · rw [if_pos (by omega : x.toNat < z.toNat)]
          · rw [if_neg (by omega : ¬y.toNat < z.toNat), if_pos h2] at hbc
            exact absurd hbc (by simp)
        · rcases Nat.lt_trichotomy y.toNat z.toNat with h2 | h2 | h2
          · rw [if_pos (by omega : x.toNat < z.toNat)]
          · rw [if_neg (by omega : ¬x.toNat < y.toNat),
              if_neg (by omega : ¬y.toNat < x.toNat)] at hab
            rw [if_neg (by omega : ¬y.toNat < z.toNat),
              if_neg (by omega : ¬z.toNat < y.toNat)] at hbc
            rw [if_neg (by omega : ¬x.toNat < z.toNat),
              if_neg (by omega : ¬z.toNat < x.toNat)]
            exact ih ys zs hab hbc
          · rw [if_neg (by omega : ¬y.toNat < z.toNat), if_pos h2] at hbc
            exact absurd hbc (by simp)
        · rw [if_neg (by omega : ¬x.toNat < y.toNat), if_pos h1] at hab
          exact absurd hab (by simp)

theorem strLeB_trans (a b c : String) (h1 : strLeB a b = true) (h2 : strLeB b c = true) :
    strLeB a c = true :=
  lexLeB_trans a.toList b.toList c.toList h1 h2

theorem orderedInsertStr_sorted (k : String) (l : List String)
    (h : List.Pairwise (fun a b : String => strLeB a b = true) l) :
    List.Pairwise (fun a b : String => strLeB a b = true) (orderedInsertStr k l) := by
  induction l with
  | nil => simp [orderedInsertStr]
  | cons x xs ih =>
    rcases List.pairwise_cons.mp h with ⟨hx, hxs⟩
    by_cases hle : strLeB k x = true
    · rw [orderedInsertStr, if_pos hle]
      refine List.pairwise_cons.mpr ⟨?_, h⟩
      intro b hb
      rcases List.mem_cons.mp hb with hbx | hb2
      · exact hbx ▸ hle
      · exact strLeB_trans k x b hle (hx b hb2)
    · rw [orderedInsertStr, if_neg hle]
      refine List.pairwise_cons.mpr ⟨?_, ih hxs⟩
      intro b hb
      rcases (mem_orderedInsertStr k b xs).mp hb with hbk | hbx
      · rw [hbk]
        rcases strLeB_total k x with h2 | h2
        · exact absurd h2 hle
        · exact h2
      · exact hx b hbx

theorem sortStrs_sorted (l : List String) :
    List.Pairwise (fun a b : String => strLeB a b = true) (sortStrs l) := by
  induction l with
  | nil => simp [sortStrs]
  | cons x xs ih => exact orderedInsertStr_sorted x (sortStrs xs) ih

/-! Membership and distinctness of the collected attribute keys. -/

theorem mem_jsSetInsert (keys : List String) (k a : String) :
    a ∈ jsSetInsert keys k ↔ a ∈ keys ∨ a = k := by
  unfold jsSetInsert
  by_cases h : k ∈ keys
  · simp [h]
    intro ha
    rw [ha]
    exact h
  · simp [h]

theorem nodup_jsSetInsert (keys : List String) (k : String) (h : keys.Nodup) :
    (jsSetInsert keys k).Nodup := by
  unfold jsSetInsert
  by_cases hk : k ∈ keys
  · simpa [hk] using h
  · simp [hk]
    refine List.Nodup.append h (by simp) ?_
    intro a ha hb
    simp at hb
    rw [hb] at ha
    exact hk ha

theorem mem_foldl_attr_keys (attrs : List (String × String)) :
    ∀ (acc : List String) (k : String),
      (k ∈ attrs.foldl (fun a kv => jsSetInsert a kv.1) acc) ↔
        k ∈ acc ∨ k ∈ attrs.map Prod.fst := by
  induction attrs with
  | nil => intro acc k; simp
  | cons kv kvs ih =>
    intro acc k
    rw [List.foldl_cons, ih (jsSetInsert acc kv.1) k, mem_jsSetInsert]
    simp
    tauto

theorem nodup_foldl_attr_keys (attrs : List (String × String)) :
    ∀ acc : List String, acc.Nodup →
      (attrs.foldl (fun a kv => jsSetInsert a kv.1) acc).Nodup := by
  induction attrs with
  | nil => intro acc h; simpa
  | cons kv kvs ih =>
    intro acc h
    exact ih (jsSetInsert acc kv.1) (nodup_jsSetInsert acc kv.1 h)

theorem mem_allAttributeKeys (d : SP1Data) (k : String) :
    k ∈ allAttributeKeys d ↔ ∃ p ∈ d.points, k ∈ p.attributes.map Prod.fst := by
  unfold allAttributeKeys
  suffices h : ∀ (pts : List SP1Point) (acc : List String),
      (k ∈ pts.foldl (fun acc2 p => p.attributes.foldl (fun a kv => jsSetInsert a kv.1) acc2)
          acc) ↔
        k ∈ acc ∨ ∃ p ∈ pts, k ∈ p.attributes.map Prod.fst by
    rw [h d.points []]
    simp
  intro pts
  induction pts with
  | nil => intro acc; simp
  | cons p ps ih =>
    intro acc
    rw [List.foldl_cons, ih, mem_foldl_attr_keys]
    simp
    tauto

theorem nodup_allAttributeKeys (d : SP1Data) : (allAttributeKeys d).Nodup := by
  unfold allAttributeKeys
  suffices h : ∀ (pts : List SP1Point) (acc : List String), acc.Nodup →
      (pts.foldl (fun acc2 p => p.attributes.foldl (fun a kv => jsSetInsert a kv.1) acc2)
        acc).Nodup by
    exact h d.points [] (by simp)
  intro pts
  induction pts with
  | nil => intro acc h; simpa
  | cons p ps ih =>
    intro acc h
    exact ih _ (nodup_foldl_attr_keys p.attributes acc h)

/-! Claim C8: the CSV header row. -/

/-- C8: the CSV export's first row is the fixed prefix `ID,X,Y,Elevation`
followed by one column per attribute key; those columns are the distinct
attribute keys occurring in any point (a key defined by a single point
becomes a column), listed in ascending lexicographic order. -/
theorem csv_header_sorted_union_of_keys (d : SP1Data) :
    convertToCSV d = String.mk (csvHeaderRowL d ++ '\n' :: csvRowsL d) ∧
    csvHeaderRowL d = "ID,X,Y,Elevation".toList
      ++ ((attributeKeysSorted d).map (fun k => ',' :: k.toList)).flatten ∧
    List.Pairwise (fun a b : String => strLeB a b = true) (attributeKeysSorted d) ∧
    (attributeKeysSorted d).Nodup ∧
    (∀ k : String, k ∈ attributeKeysSorted d ↔
      ∃ p ∈ d.points, k ∈ p.attributes.map Prod.fst) := by
  refine ⟨rfl, rfl, sortStrs_sorted (allAttributeKeys d), ?_, fun k => ?_⟩
  · exact (sortStrs_perm (allAttributeKeys d)).nodup_iff.mpr (nodup_allAttributeKeys d)
  · rw [attributeKeysSorted, (sortStrs_perm (allAttributeKeys d)).mem_iff]
    exact mem_allAttributeKeys d k

/-- Witness for C8 on a dataset whose two points define one key each, out of
order. -/
theorem csv_header_sorted_union_of_keys_witness :
    (("b" : String) ∈ attributeKeysSorted
      ⟨{}, [{ id := "P", x := none, y := none, attributes := [("b", "1")] },
            { id := "Q", x := none, y := none, attributes := [("a", "2")] }]⟩) ∧
    (attributeKeysSorted
      ⟨{}, [{ id := "P", x := none, y := none, attributes := [("b", "1")] },
            { id := "Q", x := none, y := none, attributes := [("a", "2")] }]⟩).Nodup := by
  constructor
  · exact (csv_header_sorted_union_of_keys _).2.2.2.2 "b" |>.mpr
      ⟨{ id := "P", x := none, y := none, attributes := [("b", "1")] }, by simp, by simp⟩
  · exact (csv_header_sorted_union_of_keys _).2.2.2.1

/-! Character-level facts about the number renderings. -/

theorem natDigitsAux_lt (f : ℕ) : ∀ n, ∀ d ∈ natDigitsAux f n, d < 10 := by
  induction f with
  | zero => intro n d hd; simp [natDigitsAux] at hd
  | succ f ih =>
    intro n d hd
    by_cases h0 : n = 0
    · simp [natDigitsAux, h0] at hd
    · simp only [natDigitsAux, h0, if_false] at hd
      rcases List.mem_cons.mp hd with h | h
      · rw [h]; exact Nat.mod_lt n (by omega)
      · exact ih (n / 10) d h

theorem digitCharOf_mem (d : ℕ) (h : d < 10) :
    digitCharOf d ∈ ['0', '1', '2', '3', '4', '5', '6', '7', '8', '9'] := by
  interval_cases d <;> decide

theorem mem_natDigitChars (n : ℕ) :
    ∀ c ∈ natDigitChars n, c ∈ ['0', '1', '2', '3', '4', '5', '6', '7', '8', '9'] := by
  intro c hc
  unfold natDigitChars at hc
  simp only [List.mem_reverse, List.mem_map] at hc
  rcases hc with ⟨d, hd, hdc⟩
  rw [← hdc]
  exact digitCharOf_mem d (natDigitsAux_lt n n d hd)

theorem mem_natToStrL (n : ℕ) :
    ∀ c ∈ natToStrL n, c ∈ ['0', '1', '2', '3', '4', '5', '6', '7', '8', '9'] := by
  intro c hc
  unfold natToStrL at hc
  by_cases h : n = 0
  · simp [h] at hc
    simp [hc]
  · simp only [h, if_false] at hc
    exact mem_natDigitChars n c hc

theorem natDigits_ne_nil (n : ℕ) (h : n ≠ 0) : natDigits n ≠ [] := by
  cases n with
  | zero => exact absurd rfl h
  | succ m => simp [natDigits, natDigitsAux]

theorem natToStrL_ne_nil (n : ℕ) : natToStrL n ≠ [] := by
  unfold natToStrL
  by_cases h : n = 0
  · simp [h]
  · simp only [h, if_false]
    unfold natDigitChars
    simpa using natDigits_ne_nil n h

theorem natToStrL_comma_free (n : ℕ) : ',' ∉ natToStrL n := by
  intro h
  have := mem_natToStrL n ',' h
  exact absurd this (by decide)

theorem qToStrL_ne_nil (q : ℚ) : qToStrL q ≠ [] := by
  unfold qToStrL
  intro hnil
  rcases List.append_eq_nil.mp hnil with ⟨h1, h2⟩
  rcases hd : decExpOf q.den with _ | k
  · simp only [hd] at h2
    rcases List.append_eq_nil.mp h2 with ⟨h3, _⟩
    exact natToStrL_ne_nil _ h3
  · simp only [hd] at h2
    by_cases h0 : k = 0
    · rw [if_pos h0] at h2
      exact natToStrL_ne_nil _ h2
    · rw [if_neg h0] at h2
      rcases List.append_eq_nil.mp h2 with ⟨h3, _⟩
      exact natToStrL_ne_nil _ h3

theorem qToStrL_comma_free (q : ℚ) : ',' ∉ qToStrL q := by
  unfold qToStrL
  intro hmem
  rcases List.mem_append.mp hmem with h | h
  · by_cases hq : q < 0 <;> simp [hq] at h
  · rcases hd : decExpOf q.den with _ | k
    · simp only [hd] at h
      rcases List.mem_append.mp h with h2 | h2
      · exact natToStrL_comma_free _ h2
      · rcases List.mem_cons.mp h2 with h3 | h3
        · exact absurd h3 (by decide)
        · exact natToStrL_comma_free _ h3
    · simp only [hd] at h
      by_cases h0 : k = 0
      · rw [if_pos h0] at h
        exact natToStrL_comma_free _ h
      · rw [if_neg h0] at h
        rcases List.mem_append.mp h with h2 | h2
        · exact natToStrL_comma_free _ h2
        · rcases List.mem_cons.mp h2 with h3 | h3
          · exact absurd h3 (by decide)
          · rcases List.mem_append.mp h3 with h4 | h4
            · exact absurd (List.eq_of_mem_replicate h4) (by decide)
            · have := mem_natDigitChars _ ',' h4
              exact absurd this (by decide)

theorem numToStrL_comma_free (x : Option ℚ) : ',' ∉ numToStrL x := by
  cases x with
  | none => decide
  | some q => exact qToStrL_comma_free q

theorem csvElevField_comma_free (e : Option ℚ) : ',' ∉ csvElevField e := by
  cases e with
  | none => simp [csvElevField]
  | some q =>
    by_cases h : q = 0
    · simp [csvElevField, h]
    · simpa [csvElevField, h] using qToStrL_comma_free q

/-- Decomposition of a comma-joined row: a comma-free first field followed by
blocks `,field` splits into exactly the field list. -/
theorem splitByL_comma_fields (vals : List Chars) :
    ∀ pre : Chars, ',' ∉ pre → (∀ v ∈ vals, ',' ∉ v) →
      splitByL (fun c => c = ',')
          (pre ++ (vals.map (fun v => ',' :: v)).flatten) = pre :: vals := by
  induction vals with
  | nil =>
    intro pre hpre _
    simp only [List.map_nil, List.flatten_nil, List.append_nil]
    exact splitByL_no_sep _ pre (fun c hc => by
      simp only [decide_eq_false_iff_not]
      intro hceq
      rw [hceq] at hc
      exact hpre hc)
  | cons v vs ih =>
    intro pre hpre hvals
    have hv : ',' ∉ v := hvals v (by simp)
    have hrest : ∀ w ∈ vs, ',' ∉ w := fun w hw => hvals w (by simp [hw])
    have hshape : pre ++ ((v :: vs).map (fun w => ',' :: w)).flatten =
        pre ++ ',' :: (v ++ (vs.map (fun w => ',' :: w)).flatten) := by
      simp
    rw [hshape, splitByL_append_sep _ pre _ ','
      (fun c hc => by
        simp only [decide_eq_false_iff_not]
        intro hceq
        rw [hceq] at hc
        exact hpre hc)
      (by simp), ih v hv hrest]

/-! Claim C2: the CSV data rows. -/

/-- C2 (amended): in a CSV data row (fields obtained by splitting the emitted
row at commas, under the no-embedded-comma conditions the format assumes),
the elevation field is the empty string exactly when the elevation is absent
— or zero, which the `|| ''` template also blanks out (the correction to the
frozen claim); when present and non-zero it is the default rendering of the
number; and each attribute column holds the point's value for that sorted
key, or the empty string when the point lacks it. -/
theorem csv_row_elevation_and_attribute_fields (keys : List String) (p : SP1Point)
    (hid : ',' ∉ p.id.toList)
    (hattr : ∀ kv ∈ p.attributes, ',' ∉ (kv.2 : String).toList) :
    splitByL (fun c => c = ',') (csvRowL keys p) =
      [p.id.toList, numToStrL p.x, numToStrL p.y, csvElevField p.elevation]
        ++ keys.map (fun k => ((p.attributes.lookup k).getD "").toList) ∧
    (csvElevField p.elevation = [] ↔ (p.elevation = none ∨ p.elevation = some 0)) ∧
    (∀ e : ℚ, p.elevation = some e → e ≠ 0 → csvElevField p.elevation = qToStrL e) := by
  refine ⟨?_, ?_, ?_⟩
  · have hshape : csvRowL keys p =
        p.id.toList ++
          (([numToStrL p.x, numToStrL p.y, csvElevField p.elevation]
            ++ keys.map (fun k => ((p.attributes.lookup k).getD "").toList)).map
              (fun v => ',' :: v)).flatten := by
      simp [csvRowL, jsAttrValue, Function.comp_def]
    have hvals : ∀ v ∈ [numToStrL p.x, numToStrL p.y, csvElevField p.elevation]
        ++ keys.map (fun k => ((p.attributes.lookup k).getD "").toList), ',' ∉ v := by
      intro v hv
      rcases List.mem_append.mp hv with h | h
      · rcases List.mem_cons.mp h with h2 | h2
        · rw [h2]; exact numToStrL_comma_free p.x
        · rcases List.mem_cons.mp h2 with h3 | h3
          · rw [h3]; exact numToStrL_comma_free p.y
          · rcases List.mem_cons.mp h3 with h4 | h4
            · rw [h4]; exact csvElevField_comma_free p.elevation
            · simp at h4
      · simp only [List.mem_map] at h
        rcases h with ⟨k, _, hk⟩
        rw [← hk]
        rcases hlk : p.attributes.lookup k with _ | v2
        · simp
        · rcases List.lookup_eq_some_iff.mp hlk with ⟨l1, l2, heq, _⟩
          have hv2 : (k, v2) ∈ p.attributes := by rw [heq]; simp
          simpa using hattr (k, v2) hv2
    rw [hshape, splitByL_comma_fields _ p.id.toList hid hvals]
    simp
  · cases hpe : p.elevation with
    | none => simp [csvElevField]
    | some e =>
      by_cases he : e = 0
      · simp [csvElevField, he]
      · simp [csvElevField, he, qToStrL_ne_nil e]
  · intro e hpe he
    simp [csvElevField, hpe, he]

/-- C2 counterexample: a point whose elevation is present and equal to `0`
still prints an empty elevation field (the full output of the exporter on a
one-point dataset, with nothing after the final comma). -/
theorem csv_row_zero_elevation_prints_empty :
    (⟨"P", some 1, some 2, some 0, []⟩ : SP1Point).elevation = some 0 ∧
    convertToCSV ⟨{}, [⟨"P", some 1, some 2, some 0, []⟩]⟩ =
      "ID,X,Y,Elevation\nP,1,2,\n" ∧
    qToStrL 0 = ['0'] := by
  refine ⟨rfl, by decide, by decide⟩

/-- Witness for C2 (amended) on a concrete point and key list. -/
theorem csv_row_elevation_and_attribute_fields_witness :
    splitByL (fun c => c = ',')
        (csvRowL ["k", "m"] ⟨"P", some 1, some 2, some 5, [("k", "v")]⟩) =
      [['P'], ['1'], ['2'], ['5'], ['v'], []] := by
  have h := csv_row_elevation_and_attribute_fields ["k", "m"]
    ⟨"P", some 1, some 2, some 5, [("k", "v")]⟩ (by decide) (by decide)
  rw [h.1]
  decide

/-! Claim C10: a malformed elevation cell in the CSV reader. -/

theorem getD_set_ne (l : List String) (i j : ℕ) (a d : String) (h : i ≠ j) :
    (l.set i a).getD j d = l.getD j d := by
  simp [List.getD, List.getElem?_set_ne h]

/-- C10: when the elevation column exists and a row's cell there is non-empty
but does not parse as a number, the cell is dropped entirely: the point gets
no elevation, and the row is handled exactly as if the cell were empty — in
particular the elevation column index never contributes an attribute entry. -/
theorem csv_malformed_elevation_cell_dropped (cols : List String)
    (idI xI yI k : ℕ) (values : List String)
    (hki : k ≠ idI) (hkx : k ≠ xI) (hky : k ≠ yI)
    (hcell : values.getD k "" ≠ "")
    (hparse : parseFloat (values.getD k "") = none) :
    (csvRowPoint cols idI xI yI (some k) values).elevation = none ∧
    csvRowPoint cols idI xI yI (some k) values =
      csvRowPoint cols idI xI yI (some k) (values.set k "") := by
  have hklen : k < values.length := by
    by_contra hge
    exact hcell (by simp [List.getD, List.getElem?_eq_none (by omega : values.length ≤ k)])
  have hset : (values.set k "").getD k "" = "" := by
    simp [List.getD, List.getElem?_set_self hklen]
  have hparse2 : parseFloat (values[k]?.getD "") = none := by
    simpa [List.getD] using hparse
  constructor
  · simp [csvRowPoint, hparse2]
  · have hfold : (List.range cols.length).foldl (fun acc j =>
        if j ≠ idI ∧ j ≠ xI ∧ j ≠ yI ∧ some j ≠ some k then
          (if values.getD j "" ≠ "" then jsObjInsert acc (cols.getD j "") (values.getD j "")
           else acc)
        else acc) [] =
      (List.range cols.length).foldl (fun acc j =>
        if j ≠ idI ∧ j ≠ xI ∧ j ≠ yI ∧ some j ≠ some k then
          (if (values.set k "").getD j "" ≠ "" then
            jsObjInsert acc (cols.getD j "") ((values.set k "").getD j "")
           else acc)
        else acc) [] := by
      refine List.foldl_ext _ _ _ ?_
      intro acc j hj
      by_cases hjk : j = k
      · simp [hjk]
      · rw [getD_set_ne values k j "" "" (fun he => hjk he.symm)]
    have hi2 := getD_set_ne values k idI "" "" hki
    have hx2 := getD_set_ne values k xI "" "" hkx
    have hy2 := getD_set_ne values k yI "" "" hky
    simp only [csvRowPoint, hi2, hx2, hy2, hset, hfold, hparse]
    simp [parseFloat]

/-- Witness for C10 on a concrete row whose elevation cell is `abc`. -/
theorem csv_malformed_elevation_cell_dropped_witness :
    (csvRowPoint ["id", "x", "y", "z", "e"] 0 1 2 (some 3)
      ["P", "1", "2", "abc", "w"]).elevation = none ∧
    csvRowPoint ["id", "x", "y", "z", "e"] 0 1 2 (some 3) ["P", "1", "2", "abc", "w"] =
      csvRowPoint ["id", "x", "y", "z", "e"] 0 1 2 (some 3)
        (["P", "1", "2", "abc", "w"].set 3 "") :=
  csv_malformed_elevation_cell_dropped ["id", "x", "y", "z", "e"] 0 1 2 3
    ["P", "1", "2", "abc", "w"] (by decide) (by decide) (by decide) (by decide) (by decide)

/-! Value of the digit renderings, and the `toFixed`/`parseFloat` round trip. -/

theorem digitsValL_append_one (xs : Chars) (c : Char) :
    digitsValL (xs ++ [c]) = 10 * digitsValL xs + (c.toNat - '0'.toNat) := by
  simp [digitsValL, List.foldl_append]

theorem digitCharOf_val (d : ℕ) (h : d < 10) :
    (digitCharOf d).toNat - '0'.toNat = d := by
  interval_cases d <;> decide

theorem digitsValL_rev_map (ds : List ℕ) (h : ∀ d ∈ ds, d < 10) :
    digitsValL ((ds.map digitCharOf).reverse) = valLE ds := by
  induction ds with
  | nil => rfl
  | cons d ds ih =>
    have hd : d < 10 := h d (by simp)
    have hds : ∀ e ∈ ds, e < 10 := fun e he => h e (by simp [he])
    simp only [List.map_cons, List.reverse_cons, digitsValL_append_one, ih hds,
      digitCharOf_val d hd, valLE]
    omega

theorem valLE_natDigitsAux (f : ℕ) : ∀ n, n ≤ f → valLE (natDigitsAux f n) = n := by
  induction f with
  | zero => intro n hn; interval_cases n; rfl
  | succ f ih =>
    intro n hn
    by_cases h0 : n = 0
    · simp [natDigitsAux, h0, valLE]
    · have hdiv : n / 10 ≤ f := by
        have := Nat.div_lt_self (Nat.pos_of_ne_zero h0) (by omega : 1 < 10)
        omega
      simp only [natDigitsAux, h0, if_false, valLE, ih (n / 10) hdiv]
      omega

theorem digitsValL_natDigitChars (n : ℕ) : digitsValL (natDigitChars n) = n := by
  unfold natDigitChars
  rw [digitsValL_rev_map (natDigits n) (natDigitsAux_lt n n)]
  exact valLE_natDigitsAux n n le_rfl

theorem digitsValL_natToStrL (n : ℕ) : digitsValL (natToStrL n) = n := by
  unfold natToStrL
  by_cases h : n = 0
  · simp [h, digitsValL]
  · simp only [h, if_false]
    exact digitsValL_natDigitChars n

theorem digitsValL_replicate_zero (k : ℕ) (xs : Chars) :
    digitsValL (List.replicate k '0' ++ xs) = digitsValL xs := by
  induction k with
  | zero => simp
  | succ k ih =>
    simpa [digitsValL, List.replicate_succ] using ih

theorem natDigitsAux_length (f : ℕ) :
    ∀ n k, n ≤ f → n < 10 ^ k → (natDigitsAux f n).length ≤ k := by
  induction f with
  | zero => intro n k hn _; interval_cases n; simp [natDigitsAux]
  | succ f ih =>
    intro n k hn hnk
    by_cases h0 : n = 0
    · simp [natDigitsAux, h0]
    · have hk : k ≠ 0 := by
        intro hk0
        rw [hk0] at hnk
        simp at hnk
        omega
      have hdiv : n / 10 ≤ f := by
        have := Nat.div_lt_self (Nat.pos_of_ne_zero h0) (by omega : 1 < 10)
        omega
      have hdivk : n / 10 < 10 ^ (k - 1) := by
        rw [Nat.div_lt_iff_lt_mul (by omega : 0 < 10)]
        calc n < 10 ^ k := hnk
          _ = 10 ^ (k - 1) * 10 := by
            rw [← pow_succ]
            congr 1
            omega
      simp only [natDigitsAux, h0, if_false, List.length_cons]
      have := ih (n / 10) (k - 1) hdiv hdivk
      omega

theorem natDigitChars_length (n k : ℕ) (h : n < 10 ^ k) :
    (natDigitChars n).length ≤ k := by
  unfold natDigitChars
  simpa using natDigitsAux_length n n k le_rfl h

theorem takeWhile_all_append (p : Char → Bool) (A rest : Chars)
    (hA : ∀ c ∈ A, p c = true) :
    (A ++ rest).takeWhile p = A ++ rest.takeWhile p ∧
    (A ++ rest).dropWhile p = rest.dropWhile p := by
  induction A with
  | nil => simp
  | cons a as ih =>
    have ha : p a = true := hA a (by simp)
    have := ih (fun c hc => hA c (by simp [hc]))
    simp [List.takeWhile_cons, List.dropWhile_cons, ha, this.1, this.2]

theorem takeWhile_not_head (p : Char → Bool) (l : Chars)
    (h : ∀ c, l.head? = some c → p c = false) :
    l.takeWhile p = [] ∧ l.dropWhile p = l := by
  cases l with
  | nil => simp
  | cons a as => simp [List.takeWhile_cons, List.dropWhile_cons, h a rfl]

theorem mem_digits_isDigit :
    ∀ c ∈ ['0', '1', '2', '3', '4', '5', '6', '7', '8', '9'], c.isDigit = true := by
  decide

theorem takeWhile_all (p : Char → Bool) (B : Chars) (h : ∀ c ∈ B, p c = true) :
    B.takeWhile p = B ∧ B.dropWhile p = [] := by
  induction B with
  | nil => simp
  | cons b bs ih =>
    have hb : p b = true := h b (by simp)
    have := ih (fun c hc => h c (by simp [hc]))
    simp [List.takeWhile_cons, List.dropWhile_cons, hb, this.1, this.2]

theorem scanFloatMag_intfrac (neg : Bool) (A B : Chars) (hAne : A ≠ [])
    (hA : ∀ c ∈ A, c.isDigit = true) (hB : ∀ c ∈ B, c.isDigit = true) :
    scanFloatMag neg (A ++ '.' :: B) =
      ⟨true, neg, digitsValL A, digitsValL B, B.length, 0⟩ := by
  have hdotT : ('.' :: B).takeWhile (fun c => c.isDigit) = [] := by simp
  have hdotD : ('.' :: B).dropWhile (fun c => c.isDigit) = '.' :: B := by simp
  have ht := (takeWhile_all_append (fun c => c.isDigit) A ('.' :: B) hA).1
  have hd := (takeWhile_all_append (fun c => c.isDigit) A ('.' :: B) hA).2
  rw [hdotT, List.append_nil] at ht
  rw [hdotD] at hd
  have htB := (takeWhile_all (fun c => c.isDigit) B hB).1
  have hdB := (takeWhile_all (fun c => c.isDigit) B hB).2
  simp only [scanFloatMag, ht, hd, htB, hdB, List.head?_cons, List.tail_cons]
  simp [hAne, expValL]

theorem scanFloatMag_int (neg : Bool) (A : Chars) (hAne : A ≠ [])
    (hA : ∀ c ∈ A, c.isDigit = true) :
    scanFloatMag neg A = ⟨true, neg, digitsValL A, 0, 0, 0⟩ := by
  have htA := (takeWhile_all (fun c => c.isDigit) A hA).1
  have hdA := (takeWhile_all (fun c => c.isDigit) A hA).2
  simp only [scanFloatMag, htA, hdA, List.head?_nil]
  simp [hAne, expValL, digitsValL]

theorem mem_digits_not_ws :
    ∀ c ∈ ['0', '1', '2', '3', '4', '5', '6', '7', '8', '9'], ws c = false := by
  decide

theorem mem_digits_ne_sign :
    ∀ c ∈ ['0', '1', '2', '3', '4', '5', '6', '7', '8', '9'], c ≠ '-' ∧ c ≠ '+' := by
  decide

theorem natToStrL_isDigit (n : ℕ) : ∀ c ∈ natToStrL n, c.isDigit = true :=
  fun c hc => mem_digits_isDigit c (mem_natToStrL n c hc)

theorem fracBlock_isDigit (k m : ℕ) :
    ∀ c ∈ List.replicate k '0' ++ natDigitChars m, c.isDigit = true := by
  intro c hc
  rcases List.mem_append.mp hc with h | h
  · rw [List.eq_of_mem_replicate h]; decide
  · exact mem_digits_isDigit c (mem_natDigitChars m c h)

theorem scanFloat_neg_digits (M : Chars) :
    scanFloat ('-' :: M) = scanFloatMag true M := by
  have hws : List.dropWhile ws ('-' :: M) = '-' :: M :=
    List.dropWhile_cons_of_neg (by decide)
  simp [scanFloat, hws]

theorem isDigit_not_ws (c : Char) (h : c.isDigit = true) : ws c = false := by
  by_contra hw
  have hw2 : c.isWhitespace = true := by
    revert hw
    unfold ws
    simp
  simp only [Char.isWhitespace, Bool.or_eq_true, decide_eq_true_eq] at hw2
  have hj : c = ' ' ∨ c = '\t' ∨ c = '\r' ∨ c = '\n' := by tauto
  rcases hj with h1 | h1 | h1 | h1 <;> rw [h1] at h <;> exact absurd h (by decide)

theorem isDigit_ne_dash (c : Char) (h : c.isDigit = true) : c ≠ '-' := by
  intro hc
  rw [hc] at h
  exact absurd h (by decide)

theorem isDigit_ne_plus (c : Char) (h : c.isDigit = true) : c ≠ '+' := by
  intro hc
  rw [hc] at h
  exact absurd h (by decide)

theorem scanFloat_pos_digits (M : Chars) (hne : M ≠ [])
    (hM : ∀ c, M.head? = some c → c.isDigit = true) :
    scanFloat M = scanFloatMag false M := by
  rcases M with _ | ⟨c, rest⟩
  · exact absurd rfl hne
  · have hc : c.isDigit = true := hM c rfl
    have hws : List.dropWhile ws (c :: rest) = c :: rest :=
      List.dropWhile_cons_of_neg (by simp [isDigit_not_ws c hc])
    simp [scanFloat, hws, isDigit_ne_dash c hc, isDigit_ne_plus c hc]

theorem fracBlock_length (f n : ℕ) :
    (List.replicate (f - (natDigitChars (n % 10 ^ f)).length) '0'
      ++ natDigitChars (n % 10 ^ f)).length = f := by
  have hlt : n % 10 ^ f < 10 ^ f := Nat.mod_lt n (by positivity)
  have hlen := natDigitChars_length (n % 10 ^ f) f hlt
  simp [List.length_append]
  omega

theorem fracBlock_val (f n : ℕ) :
    digitsValL (List.replicate (f - (natDigitChars (n % 10 ^ f)).length) '0'
      ++ natDigitChars (n % 10 ^ f)) = n % 10 ^ f := by
  rw [digitsValL_replicate_zero, digitsValL_natDigitChars]

theorem head_natToStrL_digit (n : ℕ) :
    ∀ c, (natToStrL n).head? = some c → c.isDigit = true := by
  intro c hc
  apply natToStrL_isDigit n
  rcases hs : natToStrL n with _ | ⟨a, rest⟩
  · exact absurd hs (natToStrL_ne_nil n)
  · rw [hs] at hc
    simp at hc
    simp [hs, hc]

theorem head?_append_left (A r : Chars) (h : A ≠ []) : (A ++ r).head? = A.head? := by
  cases A with
  | nil => exact absurd rfl h
  | cons a as => rfl

/-- Central numeric fact: parsing back the `toFixed f` rendering of a JS
number yields exactly the `f`-decimal rounding of that number (and NaN maps
to NaN). -/
theorem parseFloatL_toFixedL (f : ℕ) (x : Option ℚ) :
    parseFloatL (toFixedL f x) = x.map (jsRound f) := by
  cases x with
  | none => rfl
  | some q =>
    have hkey : ∀ neg : Bool,
        floatVal ⟨true, neg, jsRoundScaled f q / 10 ^ f, jsRoundScaled f q % 10 ^ f, f, 0⟩ =
          some ((if neg then (-1 : ℚ) else 1) * (jsRoundScaled f q : ℚ) / 10 ^ f) := by
      intro neg
      have h10 : ((10 : ℚ) ^ f) ≠ 0 := by positivity
      have hdm : ((jsRoundScaled f q / 10 ^ f : ℕ) : ℚ) +
          ((jsRoundScaled f q % 10 ^ f : ℕ) : ℚ) / (10 : ℚ) ^ f =
          (jsRoundScaled f q : ℚ) / (10 : ℚ) ^ f := by
        have hnat := Nat.div_add_mod (jsRoundScaled f q) (10 ^ f)
        have hc : ((10 ^ f * (jsRoundScaled f q / 10 ^ f) + jsRoundScaled f q % 10 ^ f : ℕ) : ℚ)
            = ((jsRoundScaled f q : ℕ) : ℚ) := by exact_mod_cast hnat
        push_cast at hc
        field_simp
        linarith
      simp only [floatVal, if_pos rfl]
      rw [zpow_zero, mul_one, hdm]
      ring_nf
      simp
    by_cases hf : f = 0
    · subst hf
      have hM : natToStrL (jsRoundScaled 0 q) ≠ [] := natToStrL_ne_nil _
      have hMd := head_natToStrL_digit (jsRoundScaled 0 q)
      by_cases hq : q < 0
      · have hshape : toFixedL 0 (some q) = '-' :: natToStrL (jsRoundScaled 0 q) := by
          simp [toFixedL, hq]
        rw [parseFloatL, hshape, scanFloat_neg_digits,
          scanFloatMag_int true _ hM (natToStrL_isDigit _), floatVal]
        simp only [if_pos rfl]
        rw [digitsValL_natToStrL, zpow_zero]
        simp [jsRound, hq]
      · have hshape : toFixedL 0 (some q) = natToStrL (jsRoundScaled 0 q) := by
          simp [toFixedL, hq]
        rw [parseFloatL, hshape, scanFloat_pos_digits _ hM hMd,
          scanFloatMag_int false _ hM (natToStrL_isDigit _), floatVal]
        simp only [if_pos rfl]
        rw [digitsValL_natToStrL, zpow_zero]
        simp [jsRound, hq]
    · have hAne : natToStrL (jsRoundScaled f q / 10 ^ f) ≠ [] := natToStrL_ne_nil _
      have hsc : ∀ neg : Bool,
          scanFloatMag neg (natToStrL (jsRoundScaled f q / 10 ^ f) ++ '.' ::
            (List.replicate (f - (natDigitChars (jsRoundScaled f q % 10 ^ f)).length) '0'
              ++ natDigitChars (jsRoundScaled f q % 10 ^ f))) =
          ⟨true, neg, jsRoundScaled f q / 10 ^ f, jsRoundScaled f q % 10 ^ f, f, 0⟩ := by
        intro neg
        rw [scanFloatMag_intfrac neg _ _ hAne (natToStrL_isDigit _) (fracBlock_isDigit _ _)]
        rw [digitsValL_natToStrL, fracBlock_val, fracBlock_length f _]
      by_cases hq : q < 0
      · have hshape : toFixedL f (some q) =
            '-' :: (natToStrL (jsRoundScaled f q / 10 ^ f) ++ '.' ::
              (List.replicate (f - (natDigitChars (jsRoundScaled f q % 10 ^ f)).length) '0'
                ++ natDigitChars (jsRoundScaled f q % 10 ^ f))) := by
          simp [toFixedL, hq, hf]
        rw [parseFloatL, hshape, scanFloat_neg_digits, hsc true, hkey true]
        simp [jsRound, hq]
      · have hshape : toFixedL f (some q) =
            natToStrL (jsRoundScaled f q / 10 ^ f) ++ '.' ::
              (List.replicate (f - (natDigitChars (jsRoundScaled f q % 10 ^ f)).length) '0'
                ++ natDigitChars (jsRoundScaled f q % 10 ^ f)) := by
          simp [toFixedL, hq, hf]
        have hMne : natToStrL (jsRoundScaled f q / 10 ^ f) ++ '.' ::
            (List.replicate (f - (natDigitChars (jsRoundScaled f q % 10 ^ f)).length) '0'
              ++ natDigitChars (jsRoundScaled f q % 10 ^ f)) ≠ [] := by
          simp [hAne]
        have hMd : ∀ c, (natToStrL (jsRoundScaled f q / 10 ^ f) ++ '.' ::
            (List.replicate (f - (natDigitChars (jsRoundScaled f q % 10 ^ f)).length) '0'
              ++ natDigitChars (jsRoundScaled f q % 10 ^ f))).head? = some c →
            c.isDigit = true := by
          intro c hc
          rw [head?_append_left _ _ hAne] at hc
          exact head_natToStrL_digit _ c hc
        rw [parseFloatL, hshape, scanFloat_pos_digits _ hMne hMd, hsc false, hkey false]
        simp [jsRound, hq]

/-! Structural lemmas about trimming, tab joins and the writer's line
structure. -/

theorem rtrimL_decomp (l : Chars) :
    ∃ suf, l = rtrimL l ++ suf ∧ ∀ c ∈ suf, ws c = true := by
  refine ⟨(l.reverse.takeWhile ws).reverse, ?_, ?_⟩
  · unfold rtrimL
    rw [← List.reverse_append, List.takeWhile_append_dropWhile, List.reverse_reverse]
  · intro c hc
    rw [List.mem_reverse] at hc
    exact List.mem_takeWhile_imp hc

theorem jsTrimL_decomp (l : Chars) :
    ∃ pre suf, l = pre ++ jsTrimL l ++ suf ∧
      (∀ c ∈ pre, ws c = true) ∧ (∀ c ∈ suf, ws c = true) := by
  rcases rtrimL_decomp (l.dropWhile ws) with ⟨suf, hsuf, hws⟩
  refine ⟨l.takeWhile ws, suf, ?_, ?_, hws⟩
  · conv_lhs => rw [← List.takeWhile_append_dropWhile ws l]
    rw [hsuf]
    simp [jsTrimL]
  · intro c hc
    exact List.mem_takeWhile_imp hc

theorem mem_of_mem_jsTrimL (l : Chars) (c : Char) (h : c ∈ jsTrimL l) : c ∈ l := by
  rcases jsTrimL_decomp l with ⟨pre, suf, hdec, _, _⟩
  rw [hdec]
  simp [h]

theorem mem_jsTrimL_of_not_ws (l : Chars) (c : Char) (hc : c ∈ l) (hws : ws c = false) :
    c ∈ jsTrimL l := by
  rcases jsTrimL_decomp l with ⟨pre, suf, hdec, hpre, hsuf⟩
  rw [hdec] at hc
  rcases List.mem_append.mp hc with h | h
  · rcases List.mem_append.mp h with h2 | h2
    · rw [hpre c h2] at hws; cases hws
    · exact h2
  · rw [hsuf c h] at hws; cases hws

theorem jsJoinL_ne_nil (sep : Chars) (t : Chars) (ts : List Chars) (h : t ≠ []) :
    jsJoinL sep (t :: ts) ≠ [] := by
  cases ts with
  | nil => simpa [jsJoinL]
  | cons y ys => simp [jsJoinL, h]

theorem head?_jsJoinL (sep : Chars) (t : Chars) (ts : List Chars) (h : t ≠ []) :
    (jsJoinL sep (t :: ts)).head? = t.head? := by
  cases ts with
  | nil => rfl
  | cons y ys =>
    show (t ++ sep ++ jsJoinL sep (y :: ys)).head? = t.head?
    cases t with
    | nil => exact absurd rfl h
    | cons a as => rfl

theorem mem_jsJoinL (sep : Chars) :
    ∀ (ts : List Chars) (c : Char), c ∈ jsJoinL sep ts →
      (∃ t ∈ ts, c ∈ t) ∨ c ∈ sep := by
  intro ts
  induction ts with
  | nil => intro c hc; simp [jsJoinL] at hc
  | cons t ts ih =>
    intro c hc
    cases ts with
    | nil =>
      simp only [jsJoinL] at hc
      exact Or.inl ⟨t, by simp, hc⟩
    | cons y ys =>
      simp only [jsJoinL, List.append_assoc, List.mem_append] at hc
      rcases hc with h | h | h
      · exact Or.inl ⟨t, by simp, h⟩
      · exact Or.inr h
      · rcases ih c h with ⟨t2, ht2, hct⟩ | hsep
        · exact Or.inl ⟨t2, by simp [ht2], hct⟩
        · exact Or.inr hsep

theorem getLast?_jsJoinL (sep : Chars) :
    ∀ (ts : List Chars) (t : Chars), ts ≠ [] → (∀ u ∈ ts, u ≠ []) →
      ts.getLast? = some t → (jsJoinL sep ts).getLast? = t.getLast? := by
  intro ts
  induction ts with
  | nil => intro t h; exact absurd rfl h
  | cons u us ih =>
    intro t _ hne hlast
    cases us with
    | nil =>
      simp at hlast
      rw [hlast]
      rfl
    | cons y ys =>
      have hylast : (y :: ys).getLast? = some t := by
        rw [List.getLast?_cons_cons] at hlast
        exact hlast
      show (u ++ sep ++ jsJoinL sep (y :: ys)).getLast? = t.getLast?
      rw [List.getLast?_append, List.getLast?_append]
      rw [ih t (by simp) (fun u2 hu2 => hne u2 (by simp [hu2])) hylast]
      have htne : t ≠ [] := by
        apply hne
        rw [List.mem_cons]
        right
        rcases List.getLast?_eq_some_iff.mp hylast with ⟨ys2, hys⟩
        rw [hys]
        simp
      rcases ho : t.getLast? with _ | c
      · exfalso
        rcases htc : t with _ | ⟨a, as⟩
        · exact htne htc
        · rw [htc] at ho
          simp at ho
      · simp [Option.or]

theorem mem_toFixedL (f : ℕ) (x : Option ℚ) :
    ∀ c ∈ toFixedL f x, c ∈
      ['-', '.', 'N', 'a', '0', '1', '2', '3', '4', '5', '6', '7', '8', '9'] := by
  intro c hc
  have hnat : ∀ n : ℕ, ∀ e ∈ natToStrL n, e ∈
      ['-', '.', 'N', 'a', '0', '1', '2', '3', '4', '5', '6', '7', '8', '9'] := by
    intro n e he
    have := mem_natToStrL n e he
    simp at this ⊢
    tauto
  have hdig : ∀ n : ℕ, ∀ e ∈ natDigitChars n, e ∈
      ['-', '.', 'N', 'a', '0', '1', '2', '3', '4', '5', '6', '7', '8', '9'] := by
    intro n e he
    have := mem_natDigitChars n e he
    simp at this ⊢
    tauto
  cases x with
  | none => simp [toFixedL] at hc; rcases hc with h | h | h <;> simp [h]
  | some q =>
    simp only [toFixedL] at hc
    rcases List.mem_append.mp hc with h | h
    · by_cases hq : q < 0 <;> simp [hq] at h
      simp [h]
    · by_cases hf : f = 0
      · rw [if_pos hf] at h
        exact hnat _ c h
      · rw [if_neg hf] at h
        rcases List.mem_append.mp h with h2 | h2
        · exact hnat _ c h2
        · rcases List.mem_cons.mp h2 with h3 | h3
          · simp [h3]
          · rcases List.mem_append.mp h3 with h4 | h4
            · rw [List.eq_of_mem_replicate h4]; simp
            · exact hdig _ c h4

theorem toFixedL_ne_nil (f : ℕ) (x : Option ℚ) : toFixedL f x ≠ [] := by
  cases x with
  | none => simp [toFixedL]
  | some q =>
    simp only [toFixedL]
    intro hnil
    rcases List.append_eq_nil.mp hnil with ⟨_, h2⟩
    by_cases hf : f = 0
    · rw [if_pos hf] at h2
      exact natToStrL_ne_nil _ h2
    · rw [if_neg hf] at h2
      rcases List.append_eq_nil.mp h2 with ⟨h3, _⟩
      exact natToStrL_ne_nil _ h3

theorem toFixedL_goodToken (f : ℕ) (x : Option ℚ) : goodToken (toFixedL f x) := by
  refine ⟨toFixedL_ne_nil f x, fun c hc => ?_⟩
  have hm := mem_toFixedL f x c hc
  have hall : ∀ e ∈ ['-', '.', 'N', 'a', '0', '1', '2', '3', '4', '5', '6', '7', '8', '9'],
      ws e = false := by decide
  exact hall c hm

theorem toFixedL_colon_free (f : ℕ) (x : Option ℚ) : ':' ∉ toFixedL f x := by
  intro h
  have := mem_toFixedL f x ':' h
  exact absurd this (by decide)

theorem pointTokensL_cons (p : SP1Point) :
    pointTokensL p = p.id.toList :: ([toFixedL 6 p.x, toFixedL 6 p.y]
      ++ (match p.elevation with
          | some e => [toFixedL 3 (some e)]
          | none => [])
      ++ p.attributes.map (fun kv => kv.2.toList)) := by
  simp [pointTokensL]

theorem pointTokensL_good (p : SP1Point) (h : goodPoint p) :
    ∀ t ∈ pointTokensL p, goodToken t := by
  intro t ht
  simp only [pointTokensL, List.mem_append, List.mem_cons] at ht
  rcases ht with ((h1 | h1 | h1) | h1) | h1
  · rw [h1]; exact h.1
  · rw [h1]; exact toFixedL_goodToken 6 p.x
  · simp at h1
    rw [h1]; exact toFixedL_goodToken 6 p.y
  · rcases hpe : p.elevation with _ | e
    · rw [hpe] at h1; simp at h1
    · rw [hpe] at h1
      simp at h1
      rw [h1]; exact toFixedL_goodToken 3 (some e)
  · simp only [List.mem_map] at h1
    rcases h1 with ⟨kv, hkv, hkvt⟩
    rw [← hkvt]
    exact h.2.2 kv hkv

theorem wsTokens_jsJoinL_tab (ts : List Chars) (h : ∀ t ∈ ts, goodToken t) :
    wsTokens (jsJoinL ['\t'] ts) = ts := by
  induction ts with
  | nil => rfl
  | cons t ts ih =>
    have hgt := h t (by simp)
    cases ts with
    | nil =>
      show wsTokens t = [t]
      unfold wsTokens
      rw [splitByL_no_sep ws t hgt.2]
      simp [hgt.1]
    | cons y ys =>
      have hrest : ∀ u ∈ y :: ys, goodToken u := fun u hu => h u (by simp [hu])
      show wsTokens (t ++ ['\t'] ++ jsJoinL ['\t'] (y :: ys)) = t :: y :: ys
      unfold wsTokens
      rw [List.append_assoc, List.singleton_append,
        splitByL_append_sep ws t _ '\t' hgt.2 (by decide)]
      simp only [List.filter_cons]
      rw [if_pos (by simpa using hgt.1)]
      have := ih hrest
      unfold wsTokens at this
      rw [this]

theorem head?_pointLineL (p : SP1Point) (h : goodPoint p) :
    (pointLineL p).head? = p.id.toList.head? := by
  rw [pointLineL, pointTokensL_cons]
  exact head?_jsJoinL ['\t'] p.id.toList _ h.1.1

theorem pointLineL_ne_nil (p : SP1Point) (h : goodPoint p) : pointLineL p ≠ [] := by
  rw [pointLineL, pointTokensL_cons]
  exact jsJoinL_ne_nil ['\t'] p.id.toList _ h.1.1

theorem pointLineL_trim (p : SP1Point) (h : goodPoint p) :
    jsTrimL (pointLineL p) = pointLineL p := by
  apply jsTrimL_eq_self
  · intro c hc
    rw [head?_pointLineL p h] at hc
    have hcm : c ∈ p.id.toList := by
      rcases hidt : p.id.toList with _ | ⟨a, as⟩
      · rw [hidt] at hc; simp at hc
      · rw [hidt] at hc
        simp at hc
        simp [hidt, hc]
    exact h.1.2 c hcm
  · intro c hc
    have hne : pointTokensL p ≠ [] := by
      rw [pointTokensL_cons]
      simp
    rcases hlast : (pointTokensL p).getLast? with _ | t
    · rcases htk : pointTokensL p with _ | ⟨a, as⟩
      · exact absurd htk hne
      · rw [htk] at hlast
        simp at hlast
    · have htmem : t ∈ pointTokensL p := by
        rcases List.getLast?_eq_some_iff.mp hlast with ⟨l2, hl2⟩
        rw [hl2]
        simp
      have hgt := pointTokensL_good p h t htmem
      rw [pointLineL, getLast?_jsJoinL ['\t'] (pointTokensL p) t hne
        (fun u hu => (pointTokensL_good p h u hu).1) hlast] at hc
      apply hgt.2
      rcases htt : t with _ | ⟨a, as⟩
      · rw [htt] at hc; simp at hc
      · rw [htt] at hc
        rcases List.getLast?_eq_some_iff.mp hc with ⟨l2, hl2⟩
        rw [hl2]
        simp

theorem pointLineL_newline_free (p : SP1Point) (h : goodPoint p) :
    '\n' ∉ pointLineL p := by
  intro hc
  rcases mem_jsJoinL ['\t'] (pointTokensL p) '\n' hc with ⟨t, ht, hct⟩ | hsep
  · have := (pointTokensL_good p h t ht).2 '\n' hct
    exact absurd this (by decide)
  · exact absurd hsep (by decide)

theorem pointLineL_colon_free (p : SP1Point)
    (hid : ':' ∉ p.id.toList)
    (hattr : ∀ kv ∈ p.attributes, ':' ∉ (kv.2 : String).toList) :
    ':' ∉ pointLineL p := by
  intro hc
  rcases mem_jsJoinL ['\t'] (pointTokensL p) ':' hc with ⟨t, ht, hct⟩ | hsep
  · simp only [pointTokensL, List.mem_append, List.mem_cons] at ht
    rcases ht with ((h1 | h1 | h1) | h1) | h1
    · rw [h1] at hct; exact hid hct
    · rw [h1] at hct; exact toFixedL_colon_free 6 p.x hct
    · simp at h1
      rw [h1] at hct; exact toFixedL_colon_free 6 p.y hct
    · rcases hpe : p.elevation with _ | e
      · rw [hpe] at h1; simp at h1
      · rw [hpe] at h1
        simp at h1
        rw [h1] at hct
        exact toFixedL_colon_free 3 (some e) hct
    · simp only [List.mem_map] at h1
      rcases h1 with ⟨kv, hkv, hkvt⟩
      rw [← hkvt] at hct
      exact hattr kv hkv hct
  · exact absurd hsep (by decide)

theorem wsTokens_pointLineL (p : SP1Point) (h : goodPoint p) :
    wsTokens (pointLineL p) = pointTokensL p :=
  wsTokens_jsJoinL_tab (pointTokensL p) (pointTokensL_good p h)

theorem pointTokensL_length (p : SP1Point) :
    (pointTokensL p).length = 3 +
      (match p.elevation with
       | some _ => 1
       | none => 0) + p.attributes.length := by
  rcases hpe : p.elevation with _ | e <;> simp [pointTokensL, hpe] <;> omega

/-- Reading back the written line of a well-formed point: the id is kept and
each numeric value comes back as its rounded rendering; a missing elevation
stays missing as long as the first attribute value (which then sits in the
elevation slot) does not parse as a number. -/
theorem mkPointL_pointTokens (p : SP1Point)
    (hb : p.elevation = none → ∀ v, (p.attributes.map (fun kv => kv.2)).head? = some v →
      parseFloatL v.toList = none) :
    (mkPointL (pointTokensL p)).id = p.id ∧
    (mkPointL (pointTokensL p)).x = p.x.map (jsRound 6) ∧
    (mkPointL (pointTokensL p)).y = p.y.map (jsRound 6) ∧
    (mkPointL (pointTokensL p)).elevation = p.elevation.map (jsRound 3) := by
  refine ⟨?_, ?_, ?_, ?_⟩
  · rw [mkPointL, pointTokensL_cons]
    simp
  · rw [mkPointL, pointTokensL_cons]
    simp [parseFloatL_toFixedL]
  · rw [mkPointL, pointTokensL_cons]
    simp [parseFloatL_toFixedL]
  · rcases hpe : p.elevation with _ | e
    · rcases hat : p.attributes with _ | ⟨kv, kvs⟩
      · have hlen : (pointTokensL p).length = 3 := by
          rw [pointTokensL_length, hpe, hat]
          simp
        simp [mkPointL, hlen]
      · have hv := hb hpe kv.2 (by rw [hat]; simp)
        have hget : (pointTokensL p).getD 3 [] = kv.2.toList := by
          rw [pointTokensL_cons, hpe, hat]
          simp [List.getD]
        have hlen : 3 < (pointTokensL p).length := by
          rw [pointTokensL_length, hpe, hat]
          simp
        simp only [mkPointL, hlen, if_pos hlen, hget, hv]
        simp
    · have hget : (pointTokensL p).getD 3 [] = toFixedL 3 (some e) := by
        rw [pointTokensL_cons, hpe]
        simp [List.getD]
      have hlen : 3 < (pointTokensL p).length := by
        rw [pointTokensL_length, hpe]
        simp
        omega
      simp only [mkPointL, hlen, if_pos hlen, hget]
      rw [parseFloatL_toFixedL]
      simp

theorem toList_mk (l : Chars) : (String.mk l).toList = l := rfl

theorem lineBlockL_append (a b : List Chars) :
    lineBlockL (a ++ b) = lineBlockL a ++ lineBlockL b := by
  simp [lineBlockL]

theorem lineBlockL_cons (x : Chars) (xs : List Chars) :
    lineBlockL (x :: xs) = x ++ '\n' :: lineBlockL xs := by
  simp [lineBlockL]

theorem jsJoinL_newline_lineBlock (ls : List Chars) (h : ls ≠ []) :
    jsJoinL ['\n'] ls ++ ['\n'] = lineBlockL ls := by
  induction ls with
  | nil => exact absurd rfl h
  | cons x xs ih =>
    cases xs with
    | nil => simp [jsJoinL, lineBlockL]
    | cons y ys =>
      show (x ++ ['\n'] ++ jsJoinL ['\n'] (y :: ys)) ++ ['\n'] = _
      rw [lineBlockL_cons, List.append_assoc, List.append_assoc, ih (by simp)]
      simp

theorem headerLineBlock_lineBlock (label : String) (v : Option String) :
    headerLineBlock label v = lineBlockL (fieldLines label v) := by
  cases v with
  | none => rfl
  | some s =>
    by_cases h : s = "" <;> simp [headerLineBlock, fieldLines, lineBlockL, h]

theorem generate_toList (d : SP1Data) :
    (generateSP1Content d).toList = lineBlockL (emittedLinesOf d) := by
  unfold generateSP1Content emittedLinesOf
  rw [toList_mk]
  rw [lineBlockL_append, lineBlockL_append, lineBlockL_append]
  have hc : (if d.header.comments = [] then []
      else jsJoinL ['\n'] (d.header.comments.map (fun c => '#' :: ' ' :: c.toList)) ++ ['\n'])
      = lineBlockL (commentLinesOf d) := by
    by_cases h : d.header.comments = []
    · simp [h, lineBlockL, commentLinesOf]
    · rw [if_neg h]
      exact jsJoinL_newline_lineBlock _ (by simpa [commentLinesOf] using h)
  have hh : lineBlockL (hdrLinesOf d) =
      headerLineBlock "Version: " d.header.version
        ++ headerLineBlock "Survey: " d.header.survey
        ++ headerLineBlock "Datum: " d.header.datum
        ++ headerLineBlock "Projection: " d.header.projection := by
    unfold hdrLinesOf
    rw [lineBlockL_append, lineBlockL_append, lineBlockL_append]
    rw [headerLineBlock_lineBlock, headerLineBlock_lineBlock, headerLineBlock_lineBlock,
      headerLineBlock_lineBlock]
  have hp : (d.points.map (fun p => pointLineL p ++ ['\n'])).flatten =
      lineBlockL (d.points.map pointLineL) := by
    simp [lineBlockL, List.map_map, Function.comp_def]
  have hnl : lineBlockL [[]] = ['\n'] := by simp [lineBlockL]
  rw [hc, hh, hp, hnl]
  simp [List.append_assoc]

theorem splitByL_lineBlock (ls : List Chars) (h : ∀ l ∈ ls, '\n' ∉ l) :
    splitByL (· = '\n') (lineBlockL ls) = ls ++ [[]] := by
  induction ls with
  | nil => simp [lineBlockL, splitByL]
  | cons x xs ih =>
    rw [lineBlockL_cons, splitByL_append_sep _ x _ '\n'
      (fun c hc => by
        simp only [decide_eq_false_iff_not]
        intro hceq
        rw [hceq] at hc
        exact h x (by simp) hc)
      (by simp)]
    rw [ih (fun l hl => h l (by simp [hl]))]
    simp

theorem fieldLines_mem (label : String) (v : Option String) (l : Chars)
    (hl : l ∈ fieldLines label v) :
    ∃ s, v = some s ∧ l = label.toList ++ s.toList := by
  cases v with
  | none => simp [fieldLines] at hl
  | some s =>
    by_cases h : s = ""
    · simp [fieldLines, h] at hl
    · simp only [fieldLines, h, if_false, List.mem_singleton] at hl
      exact ⟨s, rfl, hl⟩

theorem mem_hdrLinesOf (d : SP1Data) (hg : goodData d) (l : Chars)
    (hl : l ∈ hdrLinesOf d) : ':' ∈ l ∧ '\n' ∉ l := by
  unfold hdrLinesOf at hl
  simp only [List.mem_append] at hl
  have hgen : ∀ (label : String) (v : Option String), goodHeaderOpt v →
      ':' ∈ label.toList → '\n' ∉ label.toList →
      ∀ l2 ∈ fieldLines label v, ':' ∈ l2 ∧ '\n' ∉ l2 := by
    intro label v hv hcol hnl l2 hl2
    rcases fieldLines_mem label v l2 hl2 with ⟨s, hvs, hls⟩
    subst hls
    constructor
    · exact List.mem_append.mpr (Or.inl hcol)
    · intro hm
      rcases List.mem_append.mp hm with h | h
      · exact hnl h
      · exact hv s hvs h
  rcases hl with ((h1 | h1) | h1) | h1
  · exact hgen "Version: " d.header.version hg.2.1 (by decide) (by decide) l h1
  · exact hgen "Survey: " d.header.survey hg.2.2.1 (by decide) (by decide) l h1
  · exact hgen "Datum: " d.header.datum hg.2.2.2.1 (by decide) (by decide) l h1
  · exact hgen "Projection: " d.header.projection hg.2.2.2.2.1 (by decide) (by decide) l h1

theorem emittedLines_newline_free (d : SP1Data) (hg : goodData d) :
    ∀ l ∈ emittedLinesOf d, '\n' ∉ l := by
  intro l hl
  unfold emittedLinesOf at hl
  simp only [List.mem_append] at hl
  rcases hl with ((h1 | h1) | h1) | h1
  · unfold commentLinesOf at h1
    simp only [List.mem_map] at h1
    rcases h1 with ⟨cstr, hcm, hceq⟩
    rw [← hceq]
    intro hm
    rcases List.mem_cons.mp hm with h | h
    · exact absurd h (by decide)
    · rcases List.mem_cons.mp h with h2 | h2
      · exact absurd h2 (by decide)
      · exact hg.2.2.2.2.2 cstr hcm h2
  · exact (mem_hdrLinesOf d hg l h1).2
  · simp at h1
    rw [h1]
    simp
  · simp only [List.mem_map] at h1
    rcases h1 with ⟨p, hp, hpl⟩
    rw [← hpl]
    exact pointLineL_newline_free p (hg.1 p hp)

theorem contentLines_generate (d : SP1Data) (hg : goodData d) :
    contentLines (generateSP1Content d) =
      (commentLinesOf d).map jsTrimL ++ (hdrLinesOf d).map jsTrimL
        ++ d.points.map pointLineL := by
  unfold contentLines
  rw [generate_toList, splitByL_lineBlock _ (emittedLines_newline_free d hg)]
  unfold emittedLinesOf
  simp only [List.map_append, List.filter_append]
  have hC : ((commentLinesOf d).map jsTrimL).filter (fun l => l ≠ []) =
      (commentLinesOf d).map jsTrimL := by
    rw [List.filter_eq_self]
    intro a ha
    simp only [List.mem_map] at ha
    rcases ha with ⟨l, hl, hal⟩
    unfold commentLinesOf at hl
    simp only [List.mem_map] at hl
    rcases hl with ⟨cstr, _, hceq⟩
    rw [← hal, ← hceq, jsTrimL_cons_not_ws '#' _ (by decide)]
    simp
  have hH : ((hdrLinesOf d).map jsTrimL).filter (fun l => l ≠ []) =
      (hdrLinesOf d).map jsTrimL := by
    rw [List.filter_eq_self]
    intro a ha
    simp only [List.mem_map] at ha
    rcases ha with ⟨l, hl, hal⟩
    have hcol := (mem_hdrLinesOf d hg l hl).1
    have hcm : ':' ∈ jsTrimL l := mem_jsTrimL_of_not_ws l ':' hcol (by decide)
    rw [← hal]
    have hne : jsTrimL l ≠ [] := by
      intro hnil
      rw [hnil] at hcm
      simp at hcm
    simpa using hne
  have hD : ((d.points.map pointLineL).map jsTrimL).filter (fun l => l ≠ []) =
      d.points.map pointLineL := by
    have hmap : (d.points.map pointLineL).map jsTrimL = d.points.map pointLineL := by
      rw [List.map_map]
      apply List.map_congr_left
      intro p hp
      exact pointLineL_trim p (hg.1 p hp)
    rw [hmap, List.filter_eq_self]
    intro a ha
    simp only [List.mem_map] at ha
    rcases ha with ⟨p, hp, hpl⟩
    rw [← hpl]
    simpa using pointLineL_ne_nil p (hg.1 p hp)
  have hblank : (([([] : Chars)]).map jsTrimL).filter (fun l => l ≠ []) = [] := by
    simp [jsTrimL, rtrimL]
  simp only [hC, hH, hD, hblank] at *
  simp [hC, hH, hD, hblank]

/-! Invariants of the reader state, and the fold lemmas for the three kinds
of emitted lines. -/

theorem mem_of_mem_splitByL (p : Char → Bool) :
    ∀ (l : Chars) (part : Chars), part ∈ splitByL p l → ∀ c ∈ part, c ∈ l := by
  intro l
  induction l with
  | nil =>
    intro part hpart c hc
    simp [splitByL] at hpart
    rw [hpart] at hc
    simp at hc
  | cons a as ih =>
    intro part hpart c hc
    rcases hsp : splitByL p as with _ | ⟨x, xs⟩
    · exact absurd hsp (splitByL_ne_nil p as)
    · simp only [splitByL, hsp] at hpart
      by_cases hpa : p a = true
      · simp [hpa] at hpart
        rcases hpart with h | h | h
        · rw [h] at hc; simp at hc
        · exact List.mem_cons.mpr (Or.inr (ih part (by simp [hsp, h]) c hc))
        · exact List.mem_cons.mpr (Or.inr (ih part (by simp [hsp, h]) c hc))
      · simp [hpa] at hpart
        rcases hpart with h | h
        · rw [h] at hc
          rcases List.mem_cons.mp hc with h2 | h2
          · simp [h2]
          · exact List.mem_cons.mpr (Or.inr (ih x (by simp [hsp]) c h2))
        · exact List.mem_cons.mpr (Or.inr (ih part (by simp [hsp, h]) c hc))

theorem contentLines_good (s : String) :
    ∀ l ∈ contentLines s, jsTrimL l = l ∧ '\n' ∉ l ∧ l ≠ [] := by
  intro l hl
  unfold contentLines at hl
  rw [List.mem_filter] at hl
  rcases hl with ⟨hmem, hne⟩
  simp only [List.mem_map] at hmem
  rcases hmem with ⟨raw, hraw, hrawl⟩
  refine ⟨by rw [← hrawl]; exact jsTrimL_idem raw, ?_, by simpa using hne⟩
  intro hnl
  rw [← hrawl] at hnl
  have hmemraw := mem_of_mem_jsTrimL raw '\n' hnl
  have := mem_splitByL_no_sep (· = '\n') s.toList raw hraw '\n' hmemraw
  simp at this

theorem wsTokens_first (line : Chars) (c : Char) (rest : Chars)
    (hline : line = c :: rest) (hc : ws c = false) :
    ∃ t rest2, wsTokens line = (c :: t) :: rest2 := by
  subst hline
  rcases hsp : splitByL ws rest with _ | ⟨x, xs⟩
  · exact absurd hsp (splitByL_ne_nil ws rest)
  · refine ⟨(splitByL ws (c :: rest)).headD [] |>.tail, ((splitByL ws rest).tail).filter (· ≠ []), ?_⟩
    simp only [wsTokens, splitByL, hsp, hc]
    simp [hsp]

theorem goodToken_of_wsToken (line : Chars) (t : Chars) (ht : t ∈ wsTokens line) :
    goodToken t := by
  unfold wsTokens at ht
  rw [List.mem_filter] at ht
  refine ⟨by simpa using ht.2, fun c hc => ?_⟩
  have := mem_splitByL_no_sep ws line t ht.1 c hc
  exact this

theorem mem_of_wsToken (line : Chars) (t : Chars) (ht : t ∈ wsTokens line) :
    ∀ c ∈ t, c ∈ line := by
  unfold wsTokens at ht
  rw [List.mem_filter] at ht
  exact mem_of_mem_splitByL ws line t ht.1

theorem jsTrimL_length_le (l : Chars) : (jsTrimL l).length ≤ l.length := by
  rcases jsTrimL_decomp l with ⟨pre, suf, hdec, _, _⟩
  conv_rhs => rw [hdec]
  simp
  omega

theorem head_trimmed_not_ws (c : Char) (rest : Chars)
    (h : jsTrimL (c :: rest) = c :: rest) : ws c = false := by
  by_contra hws
  rw [Bool.not_eq_false] at hws
  have hstep : jsTrimL (c :: rest) = jsTrimL rest := by
    unfold jsTrimL
    rw [List.dropWhile_cons_of_pos hws]
  rw [hstep] at h
  have hlen := jsTrimL_length_le rest
  rw [h] at hlen
  simp at hlen

theorem headerValue_newline_free (line : Chars) (hnl : '\n' ∉ line) :
    '\n' ∉ ((splitByL (· = ':') line).map jsTrimL).getD 1 [] := by
  by_cases hlen : 1 < ((splitByL (· = ':') line).map jsTrimL).length
  · rw [List.getD_eq_getElem _ _ hlen]
    intro hc
    have hmem := List.getElem_mem hlen
    simp only [List.mem_map] at hmem
    rcases hmem with ⟨part, hpart, hpeq⟩
    rw [← hpeq] at hc
    exact hnl (mem_of_mem_splitByL _ line part hpart '\n' (mem_of_mem_jsTrimL part '\n' hc))
  · rw [List.getD_eq_default _ _ (by omega)]
    simp

theorem setHeaderField_good (h : SP1Header) (key : Chars) (value : String)
    (hh : goodHeaderOpt h.version ∧ goodHeaderOpt h.survey ∧ goodHeaderOpt h.datum ∧
      goodHeaderOpt h.projection)
    (hv : '\n' ∉ value.toList) :
    (goodHeaderOpt (setHeaderField h key value).version ∧
      goodHeaderOpt (setHeaderField h key value).survey ∧
      goodHeaderOpt (setHeaderField h key value).datum ∧
      goodHeaderOpt (setHeaderField h key value).projection) ∧
    (setHeaderField h key value).comments = h.comments := by
  have hsome : goodHeaderOpt (some value) := by
    intro s hs
    injection hs with h2
    rw [← h2]
    exact hv
  simp only [setHeaderField]
  split_ifs <;>
    exact ⟨⟨(by first | exact hsome | exact hh.1),
      (by first | exact hsome | exact hh.2.1),
      (by first | exact hsome | exact hh.2.2.1),
      (by first | exact hsome | exact hh.2.2.2)⟩, rfl⟩

theorem mkPointL_good (line : Chars) (htrim : jsTrimL line = line)
    (h2 : line ≠ []) (h3 : line.head? ≠ some '#')
    (_hlen : 3 ≤ (wsTokens line).length) :
    goodPoint (mkPointL (wsTokens line)) := by
  rcases List.exists_cons_of_ne_nil h2 with ⟨c, rest, hline⟩
  have htrim2 : jsTrimL (c :: rest) = c :: rest := by rw [← hline]; exact htrim
  have hcws : ws c = false := head_trimmed_not_ws c rest htrim2
  rcases wsTokens_first line c rest hline hcws with ⟨t, rest2, htok⟩
  have hch : c ≠ '#' := by
    intro hc
    rw [hline, hc] at h3
    simp at h3
  refine ⟨?_, ?_, ?_⟩
  · show goodToken (String.mk ((wsTokens line).headD [])).toList
    rw [toList_mk, htok]
    exact goodToken_of_wsToken line (c :: t) (by rw [htok]; simp)
  · show (String.mk ((wsTokens line).headD [])).toList.head? ≠ some '#'
    rw [toList_mk, htok]
    simp [hch]
  · intro kv hkv
    show goodToken (kv.2 : String).toList
    simp only [mkPointL, List.mem_map, List.mem_range] at hkv
    rcases hkv with ⟨i, hi, hkveq⟩
    rw [← hkveq]
    rw [toList_mk]
    have hidx : i + 4 < (wsTokens line).length := by omega
    rw [List.getD_eq_getElem _ _ hidx]
    exact goodToken_of_wsToken line _ (List.getElem_mem hidx)

theorem processLineL_good (st : ParseState) (line : Chars)
    (htrim : jsTrimL line = line) (hnl : '\n' ∉ line)
    (hst : goodData ⟨st.header, st.points⟩) :
    goodData ⟨(processLineL st line).header, (processLineL st line).points⟩ := by
  by_cases hh : line.head? = some '#'
  · rw [processLineL_comment st line hh]
    refine ⟨hst.1, hst.2.1, hst.2.2.1, hst.2.2.2.1, hst.2.2.2.2.1, ?_⟩
    intro cm hcm
    rcases List.mem_append.mp hcm with h | h
    · exact hst.2.2.2.2.2 cm h
    · rw [List.mem_singleton] at h
      rw [h, toList_mk]
      intro hc
      exact hnl (List.mem_of_mem_drop (mem_of_mem_jsTrimL _ '\n' hc))
  · by_cases hempty : line = []
    · have hid : processLineL st line = st := by
        rw [hempty]
        simp [processLineL]
      rw [hid]
      exact hst
    · by_cases hdr : st.inHeader = true ∧ line.contains ':' = true
      · rw [processLineL_header st line hempty hh hdr.1 hdr.2]
        have hval : '\n' ∉ ((splitByL (· = ':') line).map jsTrimL).getD 1 [] :=
          headerValue_newline_free line hnl
        have hres := setHeaderField_good st.header
          (((splitByL (· = ':') line).map jsTrimL).headD [])
          (String.mk (((splitByL (· = ':') line).map jsTrimL).getD 1 []))
          ⟨hst.2.1, hst.2.2.1, hst.2.2.2.1, hst.2.2.2.2.1⟩ (by rw [toList_mk]; exact hval)
        refine ⟨hst.1, hres.1.1, hres.1.2.1, hres.1.2.2.1, hres.1.2.2.2, ?_⟩
        show ∀ cm ∈ (setHeaderField st.header _ _).comments, '\n' ∉ (cm : String).toList
        rw [hres.2]
        exact hst.2.2.2.2.2
      · rw [processLineL_data st line hempty hh hdr]
        by_cases hlen : 3 ≤ (wsTokens line).length
        · rw [if_pos hlen]
          refine ⟨?_, hst.2.1, hst.2.2.1, hst.2.2.2.1, hst.2.2.2.2.1, hst.2.2.2.2.2⟩
          intro p hp
          rcases List.mem_append.mp hp with h | h
          · exact hst.1 p h
          · rw [List.mem_singleton] at h
            rw [h]
            exact mkPointL_good line htrim hempty hh hlen
        · rw [if_neg hlen]
          exact hst

theorem foldl_processLineL_good (lines : List Chars)
    (hl : ∀ l ∈ lines, jsTrimL l = l ∧ '\n' ∉ l) :
    ∀ st : ParseState, goodData ⟨st.header, st.points⟩ →
      goodData ⟨(lines.foldl processLineL st).header,
        (lines.foldl processLineL st).points⟩ := by
  induction lines with
  | nil => intro st hst; simpa using hst
  | cons l ls ih =>
    intro st hst
    rw [List.foldl_cons]
    exact ih (fun x hx => hl x (by simp [hx])) _
      (processLineL_good st l (hl l (by simp)).1 (hl l (by simp)).2 hst)

/-- Everything the SP1 reader produces satisfies the shape invariant. -/
theorem parseSP1File_good (t : String) : goodData (parseSP1File t) := by
  unfold parseSP1File
  refine foldl_processLineL_good (contentLines t)
    (fun l hl => ⟨(contentLines_good t l hl).1, (contentLines_good t l hl).2.1⟩)
    ⟨{}, [], true⟩ ?_
  refine ⟨by simp, ?_, ?_, ?_, ?_, by simp⟩ <;> intro s hs <;> simp at hs

/-! Replaying the writer's lines through the reader: the three phases. -/

theorem foldl_comment_lines (ls : List Chars) (h : ∀ l ∈ ls, l.head? = some '#') :
    ∀ st : ParseState,
      (ls.foldl processLineL st).points = st.points ∧
      (ls.foldl processLineL st).inHeader = st.inHeader := by
  induction ls with
  | nil => intro st; exact ⟨rfl, rfl⟩
  | cons l ls ih =>
    intro st
    rw [List.foldl_cons, processLineL_comment st l (h l (by simp))]
    exact ih (fun x hx => h x (by simp [hx])) _

theorem foldl_header_lines (ls : List Chars)
    (h : ∀ l ∈ ls, l ≠ [] ∧ l.head? ≠ some '#' ∧ l.contains ':' = true) :
    ∀ st : ParseState, st.inHeader = true →
      (ls.foldl processLineL st).points = st.points ∧
      (ls.foldl processLineL st).inHeader = true := by
  induction ls with
  | nil => intro st hst; exact ⟨rfl, hst⟩
  | cons l ls ih =>
    intro st hst
    rw [List.foldl_cons,
      processLineL_header st l (h l (by simp)).1 (h l (by simp)).2.1 hst (h l (by simp)).2.2]
    exact ih (fun x hx => h x (by simp [hx])) _ hst

theorem pointTokensL_three_le (p : SP1Point) : 3 ≤ (pointTokensL p).length := by
  rw [pointTokensL_length]
  omega

theorem processLineL_point_line (st : ParseState) (p : SP1Point) (hg : goodPoint p)
    (h4 : ¬(st.inHeader = true ∧ (pointLineL p).contains ':' = true)) :
    processLineL st (pointLineL p) =
      { st with inHeader := false, points := st.points ++ [mkPointL (pointTokensL p)] } := by
  rw [processLineL_data st (pointLineL p) (pointLineL_ne_nil p hg)
    (by rw [head?_pointLineL p hg]; exact hg.2.1) h4]
  rw [wsTokens_pointLineL p hg, if_pos (pointTokensL_three_le p)]

theorem foldl_point_lines (ps : List SP1Point) (hgood : ∀ p ∈ ps, goodPoint p) :
    ∀ st : ParseState, st.inHeader = false →
      ((ps.map pointLineL).foldl processLineL st).points =
        st.points ++ ps.map (fun p => mkPointL (pointTokensL p)) ∧
      ((ps.map pointLineL).foldl processLineL st).inHeader = false := by
  induction ps with
  | nil => intro st hst; exact ⟨by simp, hst⟩
  | cons p ps ih =>
    intro st hst
    rw [List.map_cons, List.foldl_cons,
      processLineL_point_line st p (hgood p (by simp))
        (fun hc => by rw [hst] at hc; exact absurd hc.1 (by simp))]
    rcases ih (fun x hx => hgood x (by simp [hx]))
      { st with inHeader := false, points := st.points ++ [mkPointL (pointTokensL p)] }
      rfl with ⟨hpts, hhd⟩
    refine ⟨?_, hhd⟩
    rw [hpts]
    simp

theorem trimmed_comment_head (d : SP1Data) (l : Chars)
    (hl : l ∈ (commentLinesOf d).map jsTrimL) : l.head? = some '#' := by
  simp only [List.mem_map] at hl
  rcases hl with ⟨raw, hraw, hleq⟩
  unfold commentLinesOf at hraw
  simp only [List.mem_map] at hraw
  rcases hraw with ⟨cstr, _, hceq⟩
  rw [← hleq, ← hceq, jsTrimL_cons_not_ws '#' _ (by decide)]
  rfl

theorem trimmed_header_line (d : SP1Data) (hg : goodData d) (l : Chars)
    (hl : l ∈ (hdrLinesOf d).map jsTrimL) :
    l ≠ [] ∧ l.head? ≠ some '#' ∧ l.contains ':' = true := by
  simp only [List.mem_map] at hl
  rcases hl with ⟨raw, hraw, hleq⟩
  have hcol := (mem_hdrLinesOf d hg raw hraw).1
  have hcolt : ':' ∈ jsTrimL raw := mem_jsTrimL_of_not_ws raw ':' hcol (by decide)
  have hhead : (jsTrimL raw).head? ≠ some '#' := by
    unfold hdrLinesOf at hraw
    simp only [List.mem_append] at hraw
    have hgen : ∀ (label : String) (v : Option String) (a : Char) (tl : Chars),
        label.toList = a :: tl → ws a = false → a ≠ '#' →
        raw ∈ fieldLines label v → (jsTrimL raw).head? ≠ some '#' := by
      intro label v a tl hlab hws hne hmem
      rcases fieldLines_mem label v raw hmem with ⟨s, _, hre⟩
      rw [hre, hlab]
      show (jsTrimL (a :: (tl ++ s.toList))).head? ≠ some '#'
      rw [jsTrimL_cons_not_ws a _ hws]
      simp [hne]
    rcases hraw with ((h1 | h1) | h1) | h1
    · exact hgen "Version: " d.header.version 'V' _ rfl (by decide) (by decide) h1
    · exact hgen "Survey: " d.header.survey 'S' _ rfl (by decide) (by decide) h1
    · exact hgen "Datum: " d.header.datum 'D' _ rfl (by decide) (by decide) h1
    · exact hgen "Projection: " d.header.projection 'P' _ rfl (by decide) (by decide) h1
  refine ⟨?_, by rw [← hleq]; exact hhead, by rw [← hleq]; simpa using hcolt⟩
  rw [← hleq]
  intro hnil
  rw [hnil] at hcolt
  simp at hcolt

/-! Concrete one-character numeric literals used by the round-trip examples. -/

theorem parseFloatL_one : parseFloatL ['1'] = some 1 := by
  have hs : scanFloat ['1'] = ⟨true, false, 1, 0, 0, 0⟩ := by decide
  rw [parseFloatL, hs]
  norm_num [floatVal]

theorem parseFloatL_two : parseFloatL ['2'] = some 2 := by
  have hs : scanFloat ['2'] = ⟨true, false, 2, 0, 0, 0⟩ := by decide
  rw [parseFloatL, hs]
  norm_num [floatVal]

theorem parseFloatL_five : parseFloatL ['5'] = some 5 := by
  have hs : scanFloat ['5'] = ⟨true, false, 5, 0, 0, 0⟩ := by decide
  rw [parseFloatL, hs]
  norm_num [floatVal]

theorem parseFloatL_x : parseFloatL ['x'] = none := by
  have hs : scanFloat ['x'] = ⟨false, false, 0, 0, 0, 0⟩ := by decide
  rw [parseFloatL, hs]
  simp [floatVal]

theorem parse_colon_example :
    parseSP1File "z\na:b 1 2" = ⟨{}, [⟨"a:b", some 1, some 2, none, []⟩]⟩ := by
  have hcl : contentLines "z\na:b 1 2" =
      [['z'], ['a', ':', 'b', ' ', '1', ' ', '2']] := by decide
  simp only [parseSP1File, hcl, List.foldl_cons, List.foldl_nil]
  rw [processLineL_data ⟨{}, [], true⟩ ['z'] (by decide) (by decide) (by decide),
    if_neg (by decide)]
  rw [processLineL_data _ ['a', ':', 'b', ' ', '1', ' ', '2'] (by decide) (by decide)
    (by decide), if_pos (by decide)]
  have htok : wsTokens ['a', ':', 'b', ' ', '1', ' ', '2'] =
      [['a', ':', 'b'], ['1'], ['2']] := by decide
  rw [htok]
  simp +decide [mkPointL, parseFloatL_one, parseFloatL_two]

theorem parse_attr_example :
    parseSP1File "P 1 2 x 5" =
      ⟨{}, [⟨"P", some 1, some 2, none, [("attr1", "5")]⟩]⟩ := by
  have hcl : contentLines "P 1 2 x 5" =
      [['P', ' ', '1', ' ', '2', ' ', 'x', ' ', '5']] := by decide
  simp only [parseSP1File, hcl, List.foldl_cons, List.foldl_nil]
  rw [processLineL_data ⟨{}, [], true⟩ _ (by decide) (by decide) (by decide),
    if_pos (by decide)]
  have htok : wsTokens ['P', ' ', '1', ' ', '2', ' ', 'x', ' ', '5'] =
      [['P'], ['1'], ['2'], ['x'], ['5']] := by decide
  rw [htok]
  simp +decide [mkPointL, parseFloatL_one, parseFloatL_two, parseFloatL_x]

theorem parse_plain_example :
    parseSP1File "P 1 2" = ⟨{}, [⟨"P", some 1, some 2, none, []⟩]⟩ := by
  have hcl : contentLines "P 1 2" = [['P', ' ', '1', ' ', '2']] := by decide
  simp only [parseSP1File, hcl, List.foldl_cons, List.foldl_nil]
  rw [processLineL_data ⟨{}, [], true⟩ _ (by decide) (by decide) (by decide),
    if_pos (by decide)]
  have htok : wsTokens ['P', ' ', '1', ' ', '2'] = [['P'], ['1'], ['2']] := by decide
  rw [htok]
  simp +decide [mkPointL, parseFloatL_one, parseFloatL_two]

theorem foldl_all_point_lines (p : SP1Point) (ps : List SP1Point)
    (hgood : ∀ q ∈ p :: ps, goodPoint q)
    (hid : ':' ∉ p.id.toList)
    (hattr : ∀ kv ∈ p.attributes, ':' ∉ (kv.2 : String).toList)
    (st : ParseState) (hpts : st.points = []) :
    (((p :: ps).map pointLineL).foldl processLineL st).points =
      (p :: ps).map (fun q => mkPointL (pointTokensL q)) := by
  rw [List.map_cons, List.foldl_cons]
  rw [processLineL_point_line st p (hgood p (by simp))
    (fun hc => pointLineL_colon_free p hid hattr (by simpa using hc.2))]
  rcases foldl_point_lines ps (fun x hx => hgood x (by simp [hx]))
    { st with inHeader := false, points := st.points ++ [mkPointL (pointTokensL p)] }
    rfl with ⟨hpts2, _⟩
  rw [hpts2, hpts]
  simp

/-- Replaying the writer's output through the reader maps every point through
the write-then-read normalisation, provided the first point's id and
attribute values are colon-free (otherwise its line is consumed as a header
line on the second read). -/
theorem reparse_points (d : SP1Data) (hg : goodData d)
    (ha : ∀ p, d.points.head? = some p →
      ':' ∉ p.id.toList ∧ ∀ kv ∈ p.attributes, ':' ∉ (kv.2 : String).toList) :
    (parseSP1File (generateSP1Content d)).points =
      d.points.map (fun p => mkPointL (pointTokensL p)) := by
  show ((contentLines (generateSP1Content d)).foldl processLineL ⟨{}, [], true⟩).points = _
  rw [contentLines_generate d hg, List.foldl_append, List.foldl_append]
  have hC := foldl_comment_lines ((commentLinesOf d).map jsTrimL)
    (trimmed_comment_head d) ⟨{}, [], true⟩
  have hH := foldl_header_lines ((hdrLinesOf d).map jsTrimL)
    (trimmed_header_line d hg)
    (((commentLinesOf d).map jsTrimL).foldl processLineL ⟨{}, [], true⟩)
    (by rw [hC.2])
  rcases hdp : d.points with _ | ⟨p, ps⟩
  · simp only [List.map_nil, List.foldl_nil]
    rw [hH.1, hC.1]
  · rw [foldl_all_point_lines p ps (fun q hq => hg.1 q (by rw [hdp]; exact hq))
      (ha p (by rw [hdp]; rfl)).1 (ha p (by rw [hdp]; rfl)).2 _ (by rw [hH.1, hC.1])]

/-! Claim C3: the SP1 write-then-read round trip. -/

/-- C3 (amended): for every input text, writing the parse result back with
`generateSP1Content` and parsing it again preserves the number of points and
the ids in order, and sends every x and y to its 6-decimal rounding and
every elevation to its 3-decimal rounding — provided (a) the first parsed
point's id and attribute values contain no colon (a colon-containing first
data line is re-consumed as a header line on the second read), and (b) no
parsed point lacking an elevation has a first attribute value that parses as
a number (such a value sits in the elevation slot of the written line and is
re-read as an elevation). -/
theorem sp1_writer_reader_roundtrip (t : String)
    (ha : ∀ p, (parseSP1File t).points.head? = some p →
      ':' ∉ p.id.toList ∧ ∀ kv ∈ p.attributes, ':' ∉ (kv.2 : String).toList)
    (hb : ∀ p ∈ (parseSP1File t).points, p.elevation = none →
      ∀ v, (p.attributes.map (fun kv => kv.2)).head? = some v →
        parseFloatL v.toList = none) :
    (parseSP1File (generateSP1Content (parseSP1File t))).points.length =
      (parseSP1File t).points.length ∧
    (parseSP1File (generateSP1Content (parseSP1File t))).points.map SP1Point.id =
      (parseSP1File t).points.map SP1Point.id ∧
    (parseSP1File (generateSP1Content (parseSP1File t))).points.map SP1Point.x =
      (parseSP1File t).points.map (fun p => p.x.map (jsRound 6)) ∧
    (parseSP1File (generateSP1Content (parseSP1File t))).points.map SP1Point.y =
      (parseSP1File t).points.map (fun p => p.y.map (jsRound 6)) ∧
    (parseSP1File (generateSP1Content (parseSP1File t))).points.map SP1Point.elevation =
      (parseSP1File t).points.map (fun p => p.elevation.map (jsRound 3)) := by
  have hg := parseSP1File_good t
  have hkey := reparse_points (parseSP1File t) hg ha
  rw [hkey]
  refine ⟨by simp, ?_, ?_, ?_, ?_⟩
  · rw [List.map_map]
    apply List.map_congr_left
    intro p hp
    exact (mkPointL_pointTokens p (hb p hp)).1
  · rw [List.map_map]
    apply List.map_congr_left
    intro p hp
    exact (mkPointL_pointTokens p (hb p hp)).2.1
  · rw [List.map_map]
    apply List.map_congr_left
    intro p hp
    exact (mkPointL_pointTokens p (hb p hp)).2.2.1
  · rw [List.map_map]
    apply List.map_congr_left
    intro p hp
    exact (mkPointL_pointTokens p (hb p hp)).2.2.2

/-- Witness for C3 (amended) on the one-point text `P 1 2`. -/
theorem sp1_writer_reader_roundtrip_witness :
    (parseSP1File (generateSP1Content (parseSP1File "P 1 2"))).points.length =
      (parseSP1File "P 1 2").points.length ∧
    (parseSP1File "P 1 2").points.length = 1 := by
  have ha : ∀ p, (parseSP1File "P 1 2").points.head? = some p →
      ':' ∉ p.id.toList ∧ ∀ kv ∈ p.attributes, ':' ∉ (kv.2 : String).toList := by
    intro p hp
    rw [parse_plain_example] at hp
    simp only [List.head?_cons, Option.some.injEq] at hp
    rw [← hp]
    exact ⟨by decide, by simp⟩
  have hb : ∀ p ∈ (parseSP1File "P 1 2").points, p.elevation = none →
      ∀ v, (p.attributes.map (fun kv => kv.2)).head? = some v →
        parseFloatL v.toList = none := by
    intro p hp he v hv
    rw [parse_plain_example] at hp
    simp only [List.mem_singleton] at hp
    rw [hp] at hv
    simp at hv
  exact ⟨(sp1_writer_reader_roundtrip "P 1 2" ha hb).1,
    by rw [parse_plain_example]; rfl⟩

/-- C3 counterexample: the round trip as originally claimed fails without the
two side conditions.  First, for `z\na:b 1 2` the reader produces one point
(id `a:b`), but the written text's first data line contains a colon and is
re-consumed as a header line, so the re-parse has zero points.  Second, for
`P 1 2 x 5` the parsed point has no elevation (the fourth token `x` does not
parse) and attribute `5`; on the written line `5` sits in the elevation slot
and the re-parse gives the point elevation `5`. -/
theorem sp1_writer_reader_roundtrip_cex :
    ((parseSP1File "z\na:b 1 2").points.length = 1 ∧
      (parseSP1File (generateSP1Content (parseSP1File "z\na:b 1 2"))).points.length
        = 0) ∧
    ((parseSP1File "P 1 2 x 5").points.map SP1Point.elevation = [none] ∧
      (parseSP1File (generateSP1Content (parseSP1File "P 1 2 x 5"))).points.map
        SP1Point.elevation = [some 5]) := by
  have hg1 : goodData (⟨{}, [⟨"a:b", some 1, some 2, none, []⟩]⟩ : SP1Data) := by
    rw [← parse_colon_example]
    exact parseSP1File_good _
  have hgp1 : goodPoint (⟨"a:b", some 1, some 2, none, []⟩ : SP1Point) :=
    hg1.1 _ (by simp)
  have hcl1 : contentLines
      (generateSP1Content (⟨{}, [⟨"a:b", some 1, some 2, none, []⟩]⟩ : SP1Data)) =
      [pointLineL ⟨"a:b", some 1, some 2, none, []⟩] := by
    rw [contentLines_generate _ hg1]
    simp [commentLinesOf, hdrLinesOf, fieldLines]
  have hcol1 : (pointLineL ⟨"a:b", some 1, some 2, none, []⟩).contains ':' = true := by
    have hmem : ':' ∈ pointLineL ⟨"a:b", some 1, some 2, none, []⟩ := by
      simp [pointLineL, pointTokensL, jsJoinL]
    simpa using hmem
  have hg2 : goodData
      (⟨{}, [⟨"P", some 1, some 2, none, [("attr1", "5")]⟩]⟩ : SP1Data) := by
    rw [← parse_attr_example]
    exact parseSP1File_good _
  have hgp2 : goodPoint (⟨"P", some 1, some 2, none, [("attr1", "5")]⟩ : SP1Point) :=
    hg2.1 _ (by simp)
  have hcl2 : contentLines
      (generateSP1Content
        (⟨{}, [⟨"P", some 1, some 2, none, [("attr1", "5")]⟩]⟩ : SP1Data)) =
      [pointLineL ⟨"P", some 1, some 2, none, [("attr1", "5")]⟩] := by
    rw [contentLines_generate _ hg2]
    simp [commentLinesOf, hdrLinesOf, fieldLines]
  refine ⟨⟨by rw [parse_colon_example]; rfl, ?_⟩, ⟨by rw [parse_attr_example]; rfl, ?_⟩⟩
  · rw [parse_colon_example]
    show ((contentLines (generateSP1Content _)).foldl processLineL
      ⟨{}, [], true⟩).points.length = 0
    rw [hcl1, List.foldl_cons, List.foldl_nil]
    rw [processLineL_header _ _ (pointLineL_ne_nil _ hgp1)
      (by rw [head?_pointLineL _ hgp1]; decide) rfl hcol1]
    rfl
  · rw [parse_attr_example]
    show (((contentLines (generateSP1Content _)).foldl processLineL
      ⟨{}, [], true⟩).points).map SP1Point.elevation = [some 5]
    rw [hcl2, List.foldl_cons, List.foldl_nil]
    rw [processLineL_point_line ⟨{}, [], true⟩
      ⟨"P", some 1, some 2, none, [("attr1", "5")]⟩ hgp2
      (fun hc => pointLineL_colon_free ⟨"P", some 1, some 2, none, [("attr1", "5")]⟩
        (by decide) (by decide) (by simpa using hc.2))]
    have htok2 : pointTokensL (⟨"P", some 1, some 2, none, [("attr1", "5")]⟩ : SP1Point) =
        [['P'], toFixedL 6 (some 1), toFixedL 6 (some 2), ['5']] := by
      simp +decide [pointTokensL]
    rw [htok2]
    simp [mkPointL, List.getD, parseFloatL_five]
